import Mathlib

/-! Shallow embedding of the scheduling core of `lvmsurveysim`:
`TileDB.__init__`, `TileDB.create_tile_table`, `TileDB.get_overlap` and
`TileDB.remove_overlap` from `lvmsurveysim/schedule/tiledb.py`, and
`Scheduler.prepare_for_night` and `Scheduler.get_optimal_tile` from
`lvmsurveysim/schedule/scheduler.py`.

Machine floats are modelled as rationals.  External collaborators
(astropy coordinates, skyfield ephemeris, the `spherical_geometry`
polygon library, the altitude and shadow-height calculators) live
outside the two embedded source files and are abstracted as function
parameters, exactly as the code consumes them. -/

/- Rational arithmetic is marked irreducible upstream; the concrete
evaluations below (witness checks on small catalogs) need it to reduce. -/
set_option allowUnsafeReducibility true
attribute [local semireducible] Rat.add Rat.sub Rat.mul Rat.div Rat.neg Rat.inv

instance {ε α : Type} [DecidableEq ε] [DecidableEq α] :
    DecidableEq (Except ε α) := fun a b =>
  match a, b with
  | .ok x, .ok y =>
    if h : x = y then isTrue (by rw [h]) else
      isFalse (fun hc => h (Except.ok.inj hc))
  | .error x, .error y =>
    if h : x = y then isTrue (by rw [h]) else
      isFalse (fun hc => h (Except.error.inj hc))
  | .ok _, .error _ => isFalse (fun hc => Except.noConfusion hc)
  | .error _, .ok _ => isFalse (fun hc => Except.noConfusion hc)

/-! ## Generic list helpers (numpy-style operations) -/

/-- Value of `l.getD i d` at an in-bounds index is the list element. -/
theorem getD_eq_getElem {α : Type} (l : List α) (d : α) (i : Nat)
    (h : i < l.length) : l.getD i d = l[i] := by
  simp [List.getD_eq_getElem?_getD, List.getElem?_eq_getElem h]

/-- An in-bounds `getD` access is a member of the list. -/
theorem getD_mem {α : Type} (l : List α) (d : α) (i : Nat)
    (h : i < l.length) : l.getD i d ∈ l := by
  rw [getD_eq_getElem l d i h]; exact l.getElem_mem h

/-- `getD` through `List.map` at an in-bounds index. -/
theorem getD_map {α β : Type} (f : α → β) (l : List α) (d : α) (d' : β)
    (i : Nat) (h : i < l.length) :
    (l.map f).getD i d' = f (l.getD i d) := by
  rw [getD_eq_getElem l d i h, getD_eq_getElem (l.map f) d' i (by simpa using h)]
  simp

/-- `getD` of `(List.range n).map f` at an in-bounds index. -/
theorem getD_range_map {β : Type} (f : Nat → β) (n : Nat) (d : β)
    (i : Nat) (h : i < n) :
    ((List.range n).map f).getD i d = f i := by
  rw [getD_map f (List.range n) 0 d i (by simpa using h)]
  congr 1
  rw [getD_eq_getElem _ 0 i (by simpa using h)]
  simp

/-- Membership in a filtered range. -/
theorem mem_filter_range (n : Nat) (f : Nat → Bool) (q : Nat) :
    q ∈ (List.range n).filter f ↔ q < n ∧ f q = true := by
  simp [List.mem_filter, List.mem_range]

/-- Membership gives an in-bounds `getD` access. -/
theorem mem_iff_exists_getD {α : Type} (l : List α) (d : α) (a : α) :
    a ∈ l ↔ ∃ i, i < l.length ∧ l.getD i d = a := by
  constructor
  · intro h
    obtain ⟨i, hi, he⟩ := List.mem_iff_getElem.mp h
    exact ⟨i, hi, by rw [getD_eq_getElem l d i hi]; exact he⟩
  · rintro ⟨i, hi, he⟩
    rw [← he]; exact getD_mem l d i hi

/-- numpy fancy indexing `arr[idx]`: returns a fresh array (a copy, not a
view) holding `arr` at the given positions. -/
def npFancyIndex {α : Type} (l : List α) (idx : List Nat) (d : α) : List α :=
  idx.map (fun k => l.getD k d)

/-- numpy boolean-mask assignment `arr[mask] = v` performed on the array
`l` itself: positions where the mask is true are overwritten by `v`. -/
def npMaskedFill {α : Type} (l : List α) (mask : List Bool) (v : α) : List α :=
  List.zipWith (fun x b => if b then v else x) l mask

/-- `itertools.compress`: keep the elements whose mask entry is true. -/
def compress {α : Type} (l : List α) (mask : List Bool) : List α :=
  (l.zip mask).filterMap (fun xb => if xb.2 then some xb.1 else none)

/-- `numpy.max` over an integer array (0 on the empty array, which numpy
would reject; it is only applied to non-empty arrays in the code). -/
def listMaxZ : List ℤ → ℤ
  | [] => 0
  | [x] => x
  | x :: y :: ys => max x (listMaxZ (y :: ys))

theorem listMaxZ_mem (l : List ℤ) (h : l ≠ []) : listMaxZ l ∈ l := by
  induction l with
  | nil => simp at h
  | cons x xs ih =>
    cases xs with
    | nil => simp [listMaxZ]
    | cons y ys =>
      rw [listMaxZ]
      rcases max_cases x (listMaxZ (y :: ys)) with ⟨he, _⟩ | ⟨he, _⟩
      · rw [he]; exact List.mem_cons_self x _
      · rw [he]; exact List.mem_cons_of_mem x (ih (by simp))

theorem le_listMaxZ (l : List ℤ) (x : ℤ) (h : x ∈ l) : x ≤ listMaxZ l := by
  induction l with
  | nil => simp at h
  | cons a as ih =>
    cases as with
    | nil =>
      simp at h; simp [listMaxZ, h]
    | cons y ys =>
      rw [listMaxZ]
      rcases List.mem_cons.mp h with he | hm
      · exact le_max_of_le_left (le_of_eq he)
      · exact le_max_of_le_right (ih hm)

/-- `numpy.argmax` over a rational array: index of the first occurrence of
the maximum (0 on the empty array). -/
def argmaxFirst : List ℚ → Nat
  | [] => 0
  | [_] => 0
  | x :: y :: ys =>
    if (y :: ys).getD (argmaxFirst (y :: ys)) 0 ≤ x then 0
    else argmaxFirst (y :: ys) + 1

theorem argmaxFirst_lt (l : List ℚ) (h : l ≠ []) : argmaxFirst l < l.length := by
  induction l with
  | nil => simp at h
  | cons x xs ih =>
    cases xs with
    | nil => simp [argmaxFirst]
    | cons y ys =>
      rw [argmaxFirst]
      by_cases hc : (y :: ys).getD (argmaxFirst (y :: ys)) 0 ≤ x
      · rw [if_pos hc]; simp
      · rw [if_neg hc]
        have := ih (by simp)
        simp only [List.length_cons] at this ⊢
        omega

theorem getD_cons_succ {α : Type} (x : α) (xs : List α) (d : α) (i : Nat) :
    (x :: xs).getD (i + 1) d = xs.getD i d := by
  simp [List.getD]

theorem getD_cons_zero {α : Type} (x : α) (xs : List α) (d : α) :
    (x :: xs).getD 0 d = x := by
  simp [List.getD]

theorem getD_le_argmaxFirst (l : List ℚ) (i : Nat) (hi : i < l.length) :
    l.getD i 0 ≤ l.getD (argmaxFirst l) 0 := by
  induction l generalizing i with
  | nil => simp at hi
  | cons x xs ih =>
    cases xs with
    | nil =>
      have hz : i = 0 := by
        simp only [List.length_cons, List.length_nil] at hi
        omega
      subst hz
      simp [argmaxFirst]
    | cons y ys =>
      rw [argmaxFirst]
      by_cases hc : (y :: ys).getD (argmaxFirst (y :: ys)) 0 ≤ x
      · rw [if_pos hc]
        cases i with
        | zero => simp
        | succ i' =>
          have hi' : i' < (y :: ys).length := by
            simp only [List.length_cons] at hi ⊢; omega
          have hle := ih i' hi'
          rw [getD_cons_succ, getD_cons_zero]
          exact le_trans hle hc
      · rw [if_neg hc]
        cases i with
        | zero =>
          rw [getD_cons_zero, getD_cons_succ]
          exact le_of_not_le hc
        | succ i' =>
          have hi' : i' < (y :: ys).length := by
            simp only [List.length_cons] at hi ⊢; omega
          have hle := ih i' hi'
          rw [getD_cons_succ, getD_cons_succ]
          exact hle

/-- Descending insertion into a descending-sorted list. -/
def insertDesc (x : ℤ) : List ℤ → List ℤ
  | [] => [x]
  | y :: ys => if y ≤ x then x :: y :: ys else y :: insertDesc x ys

/-- Sort descending (insertion sort). -/
def sortDesc (l : List ℤ) : List ℤ := l.foldr insertDesc []

/-- `numpy.flip(numpy.unique(arr))`: the distinct values of `arr` in
strictly descending order. -/
def uniqueDesc (l : List ℤ) : List ℤ := sortDesc l.dedup

theorem mem_insertDesc (x a : ℤ) (l : List ℤ) :
    a ∈ insertDesc x l ↔ a = x ∨ a ∈ l := by
  induction l with
  | nil => simp [insertDesc]
  | cons y ys ih =>
    rw [insertDesc]
    by_cases hc : y ≤ x
    · simp [hc]
    · simp only [hc, if_false, List.mem_cons, ih]
      tauto

theorem insertDesc_ne_nil (x : ℤ) (l : List ℤ) : insertDesc x l ≠ [] := by
  cases l with
  | nil => simp [insertDesc]
  | cons y ys =>
    rw [insertDesc]
    by_cases hc : y ≤ x <;> simp [hc]

theorem mem_sortDesc (a : ℤ) (l : List ℤ) : a ∈ sortDesc l ↔ a ∈ l := by
  induction l with
  | nil => simp [sortDesc]
  | cons x xs ih =>
    rw [sortDesc, List.foldr_cons, mem_insertDesc]
    rw [sortDesc] at ih
    simp [ih]

theorem sortDesc_eq_nil_iff (l : List ℤ) : sortDesc l = [] ↔ l = [] := by
  cases l with
  | nil => simp [sortDesc]
  | cons x xs =>
    rw [sortDesc, List.foldr_cons]
    constructor
    · intro h; exact absurd h (insertDesc_ne_nil x _)
    · intro h; simp at h

theorem headD_insertDesc_ge (x a : ℤ) (l : List ℤ) (d : ℤ) (ha : a = x ∨ a ∈ l)
    (hl : ∀ b ∈ l, b ≤ l.headD d) :
    a ≤ (insertDesc x l).headD d := by
  cases l with
  | nil =>
    rcases ha with rfl | h
    · simp [insertDesc]
    · simp at h
  | cons y ys =>
    rw [insertDesc]
    by_cases hc : y ≤ x
    · simp only [hc, if_true, List.headD_cons]
      rcases ha with rfl | h
      · exact le_refl a
      · exact le_trans (hl a h) (by simpa using hc)
    · simp only [hc, if_false, List.headD_cons]
      rcases ha with rfl | h
      · exact le_of_not_le hc
      · simpa using hl a h

/-- Every element of `l` is bounded by the head of its descending sort. -/
theorem le_headD_sortDesc (l : List ℤ) (d : ℤ) :
    ∀ a ∈ l, a ≤ (sortDesc l).headD d := by
  induction l with
  | nil => intro a h; simp at h
  | cons x xs ih =>
    intro a h
    rw [sortDesc, List.foldr_cons]
    have hxs : ∀ b ∈ sortDesc xs, b ≤ (sortDesc xs).headD d := by
      intro b hb
      exact ih b ((mem_sortDesc b xs).mp hb)
    rcases List.mem_cons.mp h with rfl | hm
    · exact headD_insertDesc_ge a a (sortDesc xs) d (Or.inl rfl) hxs
    · exact headD_insertDesc_ge x a (sortDesc xs) d
        (Or.inr ((mem_sortDesc a xs).mpr hm)) hxs

theorem headD_sortDesc_mem (l : List ℤ) (d : ℤ) (h : l ≠ []) :
    (sortDesc l).headD d ∈ l := by
  have hne : sortDesc l ≠ [] := fun hc => h ((sortDesc_eq_nil_iff l).mp hc)
  rw [← mem_sortDesc]
  cases hs : sortDesc l with
  | nil => exact absurd hs hne
  | cons a as => simp

theorem uniqueDesc_eq_nil_iff (l : List ℤ) : uniqueDesc l = [] ↔ l = [] := by
  rw [uniqueDesc, sortDesc_eq_nil_iff, List.dedup_eq_nil]

theorem le_headD_uniqueDesc (l : List ℤ) (a : ℤ) (d : ℤ) (h : a ∈ l) :
    a ≤ (uniqueDesc l).headD d :=
  le_headD_sortDesc l.dedup d a (List.mem_dedup.mpr h)

theorem headD_uniqueDesc_mem (l : List ℤ) (d : ℤ) (h : l ≠ []) :
    (uniqueDesc l).headD d ∈ l := by
  have := headD_sortDesc_mem l.dedup d (by simpa [List.dedup_eq_nil] using h)
  exact List.mem_dedup.mp this

/-! ## Data model (`lvmsurveysim.target`)

`Target` and `Tile` carry exactly the attributes that
`tiledb.py` / `scheduler.py` read from them.  Region geometry (circle /
rectangle / polygon shapes and the `spherical_geometry` polygons built
from them) lives outside the two embedded files and is abstracted by the
`Geometry` record below. -/

structure Target where
  name : String
  telescope : String
  priority : ℤ
  maxAirmass : ℚ
  maxLunation : ℚ
  minShadowheight : ℚ
  minMoonDist : ℚ
  exptime : ℚ
  nExposures : ℚ
  minExposures : ℚ
  overlap : Bool
  deriving DecidableEq, Inhabited, Repr

structure Tile where
  ra : ℚ
  dec : ℚ
  pa : ℚ
  priority : ℤ
  deriving DecidableEq, Inhabited, Repr

/-- One row of `TileDB.tile_table` with the columns built by
`create_tile_table` (tiledb.py lines 184-254). -/
structure TileRow where
  tileID : ℤ
  targetIndex : ℕ
  target : String
  telescope : String
  ra : ℚ
  dec : ℚ
  pa : ℚ
  targetPriority : ℤ
  tilePriority : ℤ
  airmassLimit : ℚ
  lunationLimit : ℚ
  hzLimit : ℚ
  moonDistanceLimit : ℚ
  totalExptime : ℚ
  visitExptime : ℚ
  status : ℤ
  deriving DecidableEq, Inhabited, Repr

/-! ## `TileDB.__init__` (tiledb.py lines 112-132) -/

structure TileDBInit where
  targets : List Target
  tileidStart : ℤ
  deriving DecidableEq, Repr

/-- `TileDB.__init__`: resolves `tileid_start or config['tiledb']['tileid_start']`
(Python `or` falls back on `None` and on the falsy value `0`), then asserts
`tileid_start > -1`. -/
def mkTileDB (targets : List Target) (tileidStart : Option ℤ)
    (configStart : ℤ) : Except String TileDBInit :=
  let s : ℤ :=
    match tileidStart with
    | some v => if v = 0 then configStart else v
    | none => configStart
  if s > -1 then .ok ⟨targets, s⟩
  else .error ("tileid_start value invalid, must be 0 or greater integer")

/-! ## `TileDB.create_tile_table` (tiledb.py lines 184-254)

`self.tiles` is a dict from target number to tile list; `s = sorted(self.tiles)`
is the ascending list of target numbers, modelled as a `List (List Tile)`
indexed by position.  Every per-target constraint is broadcast
(`numpy.repeat`) over that target's tiles, and the columns are
concatenated in target order; here each row is built directly. -/

/-- The concatenation over targets of `(target index, tile)` pairs, in
ascending target order (the order of all `numpy.concatenate` calls). -/
def tilesFlat (tiles : List (List Tile)) : List (ℕ × Tile) :=
  (List.range tiles.length).flatMap
    (fun idx => (tiles.getD idx []).map (fun t => (idx, t)))

/-- `create_tile_table`: one `TileRow` per surviving tile, with
`TileID = tileid_start + row position`, the owning target's data copied
down, `TotalExptime = exptime * n_exposures`,
`VisitExptime = exptime * min_exposures` and `Status = 0`. -/
def createTileTable (targets : List Target) (tiles : List (List Tile))
    (tileidStart : ℤ) : List TileRow :=
  (tilesFlat tiles).enum.map
    (fun rowAndTile =>
      let row := rowAndTile.1
      let idx := rowAndTile.2.1
      let t := rowAndTile.2.2
      let tgt := targets.getD idx default
      { tileID := tileidStart + row
        targetIndex := idx
        target := tgt.name
        telescope := tgt.telescope
        ra := t.ra
        dec := t.dec
        pa := t.pa
        targetPriority := tgt.priority
        tilePriority := t.priority
        airmassLimit := tgt.maxAirmass
        lunationLimit := tgt.maxLunation
        hzLimit := tgt.minShadowheight
        moonDistanceLimit := tgt.minMoonDist
        totalExptime := tgt.exptime * tgt.nExposures
        visitExptime := tgt.exptime * tgt.minExposures
        status := 0 })

/-! ## `TileDB.get_overlap` / `TileDB.remove_overlap` (tiledb.py 257-430)

The `spherical_geometry` polygons are external: for the embedding a
`Geometry` record gives, per target index, the results of
`poly_i.intersects_poly(poly_j)` and `poly_i.contains_radec(ra, dec)`
for the polygon built from target `i`'s region (from_cone for circles,
from_radec on perimeter samples otherwise, always in ICRS). -/

structure Geometry where
  intersects : ℕ → ℕ → Bool
  containsRadec : ℕ → ℚ → ℚ → Bool

/-- The strict "processed before" order of `get_overlap`:
`sorted_indices = numpy.argsort(priorities)[::-1]`.  `argsort` is modelled
as the stable ascending sort (ties keep original order), so after the
reversal ties appear in descending original index. -/
def keyLe (prios : List ℤ) (a b : ℕ) : Bool :=
  decide (prios.getD a 0 < prios.getD b 0) ||
    (decide (prios.getD a 0 = prios.getD b 0) && decide (a ≤ b))

def insertByKey (prios : List ℤ) (x : ℕ) : List ℕ → List ℕ
  | [] => [x]
  | y :: ys => if keyLe prios x y then x :: y :: ys else y :: insertByKey prios x ys

def argsortAsc (prios : List ℤ) : List ℕ :=
  (List.range prios.length).foldr (insertByKey prios) []

/-- `numpy.argsort(priorities)[::-1]` (tiledb.py line 292). -/
def sortedIndices (prios : List ℤ) : List ℕ :=
  (argsortAsc prios).reverse

/-- The ordered pairs `(target_index_i, j)` visited by the nested loops at
tiledb.py lines 318 and 360 (`enumerate(sorted_indices[:-1])` with inner
`sorted_indices[index_of_i + 1:]`; dropping the last element only removes
an iteration with an empty inner loop). -/
def overlapPairs : List ℕ → List (ℕ × ℕ)
  | [] => []
  | i :: rest => rest.map (fun j => (i, j)) ++ overlapPairs rest

/-- Priorities of the targets indexed by the tile-dict keys
(tiledb.py line 287). -/
def targetPrios (targets : List Target) (tiles : List (List Tile)) : List ℤ :=
  (List.range tiles.length).map (fun idx => (targets.getD idx default).priority)

/-- One step of the pair loop: if both targets participate in overlap,
AND target `j`'s `global_no_overlap` mask with the pairwise mask
(`not contains` per tile if the polygons intersect, all-true otherwise);
lines 320, 361, 398-428. -/
def applyPair (geo : Geometry) (targets : List Target) (tiles : List (List Tile))
    (masks : List (List Bool)) (ij : ℕ × ℕ) : List (List Bool) :=
  let i := ij.1
  let j := ij.2
  if (targets.getD i default).overlap && (targets.getD j default).overlap then
    let mji : List Bool :=
      if geo.intersects i j then
        (tiles.getD j []).map (fun t => ! geo.containsRadec i t.ra t.dec)
      else
        (tiles.getD j []).map (fun _ => true)
    masks.set j (List.zipWith (· && ·) (masks.getD j []) mji)
  else masks

/-- `get_overlap`: the per-target `global_no_overlap` masks.  The masks
start all-true (lines 296-299) and every processed ordered pair ANDs its
pairwise mask into the lower-priority target's entry (line 428).  The
block at lines 302-313 only seeds pairwise dictionary entries for
non-participating targets and never touches `global_no_overlap`, so it
does not appear here. -/
def getOverlap (geo : Geometry) (targets : List Target)
    (tiles : List (List Tile)) : List (List Bool) :=
  let init : List (List Bool) := tiles.map (fun ts => ts.map (fun _ => true))
  (overlapPairs (sortedIndices (targetPrios targets tiles))).foldl
    (applyPair geo targets tiles) init

structure RemoveResult where
  tiles : List (List Tile)
  warned : List String
  deriving DecidableEq, Repr

/-- `remove_overlap` (lines 257-276): compress every target's tile list by
its `global_no_overlap` mask; a target left with zero tiles gets a
non-fatal warning (collected in `warned`) and the loop continues. -/
def removeOverlap (geo : Geometry) (targets : List Target)
    (tiles : List (List Tile)) : RemoveResult :=
  let overlap := getOverlap geo targets tiles
  let newTiles := (List.range tiles.length).map
    (fun ii => compress (tiles.getD ii []) (overlap.getD ii []))
  let warned := (List.range tiles.length).filterMap
    (fun ii =>
      if (newTiles.getD ii []).isEmpty then
        some ((targets.getD ii default).name)
      else none)
  ⟨newTiles, warned⟩

/-! ## `Scheduler` (scheduler.py)

External collaborators consumed by the scheduler, abstracted as pure
functions of their inputs:
`get_lst(jd, lon)` (lvmsurveysim.utils.spherical),
`AltitudeCalculator(ra, dec, lon, lat)(lst)`,
`shadow_calc` with observatory data baked in (`update_time(jd)` followed
by `get_heights` makes the height a function of `jd` and the tile
coordinates), `great_circle_distance` and
`90 - rad2deg(arccos(x))` used for the airmass-to-altitude conversion. -/

structure Astro where
  getLst : ℚ → ℚ → ℚ
  altitude : ℚ → ℚ → ℚ → ℚ → ℚ
  shadowHeight : ℚ → ℚ → ℚ → ℚ
  greatCircleDist : ℚ → ℚ → ℚ → ℚ → ℚ
  arccosDeg : ℚ → ℚ

/-- The single row of the observing plan selected by
`plan[plan['JD'] == jd]` (scheduler.py lines 90-96), plus the
observatory location used by `prepare_for_night`. -/
structure NightPlanRow where
  eveningTwilight : ℚ
  morningTwilight : ℚ
  moonPhase : ℚ
  moonRa : ℚ
  moonDec : ℚ
  lon : ℚ
  lat : ℚ

/-- The per-night state prepared by `Scheduler.prepare_for_night`
(scheduler.py lines 64-116) plus the scheduler configuration
(`zenith_avoidance`) read in `__init__`. -/
structure NightContext where
  zenithAvoidance : ℚ
  maxpriority : ℤ
  eveningTwi : ℚ
  morningTwi : ℚ
  lunation : ℚ
  table : List TileRow
  moonToPointings : ℕ → ℚ
  moonOk : ℕ → Bool
  minAltForTarget : ℕ → ℚ
  lstOf : ℚ → ℚ
  altAt : ℚ → ℕ → ℚ
  shadowAt : ℚ → ℕ → ℚ

/-- Row access into the tile table (columnar numpy access in the code). -/
def rowOf (ctx : NightContext) (k : ℕ) : TileRow := ctx.table.getD k default

/-- `Scheduler.prepare_for_night`: per-night static quantities.
`maxpriority` is the maximum priority over all targets (line 88, a Python
`max` that presupposes a non-empty target list); the moon distance to each
tile is treated as constant for the night (lines 101-102); `moon_ok` is
`(moon_to_pointings > MoonDistanceLimit) & (lunation <= LunationLimit)`
(line 116); `min_alt_for_target = 90 - rad2deg(arccos(1/AirmassLimit))`
(line 112). -/
def prepareForNight (astro : Astro) (zenithAvoidance : ℚ)
    (night : NightPlanRow) (targets : List Target)
    (table : List TileRow) : NightContext :=
  { zenithAvoidance := zenithAvoidance
    maxpriority := listMaxZ (targets.map (fun t => t.priority))
    eveningTwi := night.eveningTwilight
    morningTwi := night.morningTwilight
    lunation := night.moonPhase
    table := table
    moonToPointings := fun k =>
      astro.greatCircleDist night.moonRa night.moonDec
        (table.getD k default).ra (table.getD k default).dec
    moonOk := fun k =>
      decide (astro.greatCircleDist night.moonRa night.moonDec
          (table.getD k default).ra (table.getD k default).dec >
        (table.getD k default).moonDistanceLimit) &&
      decide (night.moonPhase ≤ (table.getD k default).lunationLimit)
    minAltForTarget := fun k =>
      90 - astro.arccosDeg (1 / (table.getD k default).airmassLimit)
    lstOf := fun jd => astro.getLst jd night.lon
    altAt := fun lst k =>
      astro.altitude lst (table.getD k default).ra (table.getD k default).dec
        night.lat
    shadowAt := fun jd k =>
      astro.shadowHeight jd (table.getD k default).ra
        (table.getD k default).dec }

/-! ## `Scheduler.get_optimal_tile` (scheduler.py lines 119-240)

Each numpy whole-catalog array is a function of the row index `k`. -/

/-- `alt_start = ac(lst=lst)` (line 161). -/
def altStartF (ctx : NightContext) (jd : ℚ) (k : ℕ) : ℚ :=
  ctx.altAt (ctx.lstOf jd) k

/-- `alt_end = ac(lst=lst + VisitExptime/3600)` (line 162). -/
def altEndF (ctx : NightContext) (jd : ℚ) (k : ℕ) : ℚ :=
  ctx.altAt (ctx.lstOf jd + (rowOf ctx k).visitExptime / 3600) k

/-- `alt_ok` (line 165): both altitudes below `90 - zenith_avoidance`. -/
def altOkF (ctx : NightContext) (jd : ℚ) (k : ℕ) : Bool :=
  decide (altStartF ctx jd k < 90 - ctx.zenithAvoidance) &&
    decide (altEndF ctx jd k < 90 - ctx.zenithAvoidance)

/-- `airmass_ok` (line 168): both altitudes above the precomputed
per-tile minimum altitude. -/
def airmassOkF (ctx : NightContext) (jd : ℚ) (k : ℕ) : Bool :=
  decide (altStartF ctx jd k > ctx.minAltForTarget k) &&
    decide (altEndF ctx jd k > ctx.minAltForTarget k)

/-- `exptime_ok = observed < TotalExptime` (line 171). -/
def exptimeOkF (ctx : NightContext) (observed : List ℚ) (k : ℕ) : Bool :=
  decide (observed.getD k 0 < (rowOf ctx k).totalExptime)

/-- `valid_mask = alt_ok & moon_ok & airmass_ok & exptime_ok` (line 175). -/
def validMaskF (ctx : NightContext) (jd : ℚ) (observed : List ℚ) (k : ℕ) : Bool :=
  altOkF ctx jd k && ctx.moonOk k && airmassOkF ctx jd k &&
    exptimeOkF ctx observed k

/-- `hz` (lines 178-180): zero-filled, shadow heights computed only for
rows passing `valid_mask`. -/
def hzF (ctx : NightContext) (jd : ℚ) (observed : List ℚ) (k : ℕ) : ℚ :=
  if validMaskF ctx jd observed k then ctx.shadowAt jd k else 0

/-- `hz_ok = hz > HzLimit` (line 181). -/
def hzOkF (ctx : NightContext) (jd : ℚ) (observed : List ℚ) (k : ℕ) : Bool :=
  decide (hzF ctx jd observed k > (rowOf ctx k).hzLimit)

/-- `valid_idx = numpy.where(valid_mask & hz_ok)[0]` (line 185). -/
def validIdxL (ctx : NightContext) (jd : ℚ) (observed : List ℚ) : List ℕ :=
  (List.range ctx.table.length).filter
    (fun k => validMaskF ctx jd observed k && hzOkF ctx jd observed k)

/-- `incomplete = (observed > 0) & (observed < TotalExptime)` (line 192). -/
def incompleteF (ctx : NightContext) (observed : List ℚ) (k : ℕ) : Bool :=
  decide (0 < observed.getD k 0) &&
    decide (observed.getD k 0 < (rowOf ctx k).totalExptime)

/-- The `valid_priorities` array after the in-place override
(lines 199-205): a fancy-indexed copy of the `TargetPriority` column with
`maxpriority + 1` written at the incomplete valid rows. -/
def effPrioL (ctx : NightContext) (observed : List ℚ)
    (validIdx : List ℕ) : List ℤ :=
  npMaskedFill
    (npFancyIndex (ctx.table.map (fun r => r.targetPriority)) validIdx 0)
    (npFancyIndex ((List.range ctx.table.length).map
      (fun k => incompleteF ctx observed k)) validIdx false)
    (ctx.maxpriority + 1)

/-- Per-row effective priority: the target priority, overridden to
`maxpriority + 1` on partially observed rows. -/
def effPrioF (ctx : NightContext) (observed : List ℚ) (k : ℕ) : ℤ :=
  if incompleteF ctx observed k then ctx.maxpriority + 1
  else (rowOf ctx k).targetPriority

/-- Result tuple of `get_optimal_tile`:
`(observed_idx, lst, hz, alt, lunation)` with `-1` as "no tile" index. -/
structure SelResult where
  idx : ℤ
  lst : ℚ
  hz : ℚ
  alt : ℚ
  lunation : ℚ
  deriving DecidableEq, Repr

/-- The sentinel `(-1, lst, 0, 0, lunation)` of line 189. -/
def sentinel (lst lunation : ℚ) : SelResult :=
  ⟨-1, lst, 0, 0, lunation⟩

/-- The arrays the selection loop of `get_optimal_tile` works on. -/
structure SelArgs where
  lst : ℚ
  lunation : ℚ
  hz : ℕ → ℚ
  altStart : ℕ → ℚ
  tilePrio : ℕ → ℤ
  validIdx : List ℕ
  effPrio : List ℤ

/-- `valid_priority_idx = numpy.where(valid_priorities == priority)[0]`
(line 213): positions inside the valid set with the current priority. -/
def vpIdxL (a : SelArgs) (p : ℤ) : List ℕ :=
  (List.range a.effPrio.length).filter (fun q => decide (a.effPrio.getD q 0 = p))

/-- `valid_alt = alt_start[valid_idx]` (line 198). -/
def validAltL (a : SelArgs) : List ℚ := a.validIdx.map a.altStart

/-- `valid_tile_priorities = tile_priorities[valid_idx]` (line 201). -/
def validTPL (a : SelArgs) : List ℤ := a.validIdx.map a.tilePrio

/-- `valid_alt_target_priority = valid_alt[valid_priority_idx]` (line 220,
the altitudes of the current priority class). -/
def vATP (a : SelArgs) (p : ℤ) : List ℚ :=
  (vpIdxL a p).map (fun q => (validAltL a).getD q 0)

/-- `valid_alt_tile_priority = valid_tile_priorities[valid_priority_idx]`
(line 221). -/
def vTP (a : SelArgs) (p : ℤ) : List ℤ :=
  (vpIdxL a p).map (fun q => (validTPL a).getD q 0)

/-- `max_tile_priority` (line 224). -/
def maxTP (a : SelArgs) (p : ℤ) : ℤ := listMaxZ (vTP a p)

/-- `high_priority_tiles = numpy.where(... == max_tile_priority)[0]`
(line 225). -/
def hptL (a : SelArgs) (p : ℤ) : List ℕ :=
  (List.range (vTP a p).length).filter
    (fun t => decide ((vTP a p).getD t 0 = maxTP a p))

/-- `obs_alt_idx = (...).argmax()` (line 228). -/
def obsAltIdx (a : SelArgs) (p : ℤ) : ℕ :=
  argmaxFirst ((hptL a p).map (fun t => (vATP a p).getD t 0))

/-- `obs_tile_idx = high_priority_tiles[obs_alt_idx]` (line 231). -/
def obsTileIdx (a : SelArgs) (p : ℤ) : ℕ :=
  (hptL a p).getD (obsAltIdx a p) 0

/-- `obs_alt = valid_alt_target_priority[obs_tile_idx]` (line 232). -/
def obsAlt (a : SelArgs) (p : ℤ) : ℚ :=
  (vATP a p).getD (obsTileIdx a p) 0

/-- `observed_idx = valid_idx[valid_priority_idx[obs_tile_idx]]`
(line 235). -/
def observedIdxSel (a : SelArgs) (p : ℤ) : ℕ :=
  a.validIdx.getD ((vpIdxL a p).getD (obsTileIdx a p) 0) 0

/-- The `return` of line 237. -/
def selStep (a : SelArgs) (p : ℤ) : Except String SelResult :=
  .ok ⟨(observedIdxSel a p : ℤ), a.lst, a.hz (observedIdxSel a p),
    obsAlt a p, a.lunation⟩

/-- The selection loop over priorities, highest first (lines 208-240):
for the current priority collect its positions inside the valid set
(`continue` when the class is empty), keep the positions of maximal tile
priority, take the (first) highest-altitude one among them and return;
the fall-through after the loop is the `assert False, "Unreachable
code!"`. -/
def selLoop (a : SelArgs) : List ℤ → Except String SelResult
  | [] => .error ("Unreachable code!")
  | p :: rest =>
    if (vpIdxL a p).isEmpty then selLoop a rest
    else selStep a p

/-- The `SelArgs` that `get_optimal_tile` hands the selection loop. -/
def selArgsOf (ctx : NightContext) (jd : ℚ) (observed : List ℚ) : SelArgs :=
  { lst := ctx.lstOf jd
    lunation := ctx.lunation
    hz := hzF ctx jd observed
    altStart := altStartF ctx jd
    tilePrio := fun k => (rowOf ctx k).tilePriority
    validIdx := validIdxL ctx jd observed
    effPrio := effPrioL ctx observed (validIdxL ctx jd observed) }

/-- `Scheduler.get_optimal_tile` (lines 119-240).  The three `assert`
statements become `Except.error`; the "no tile" sentinel and the tile
selection are `Except.ok`. -/
def getOptimalTile (ctx : NightContext) (jd : ℚ) (observed : List ℚ) :
    Except String SelResult :=
  if ¬ jd < ctx.morningTwi then .error ("Twilight reached.")
  else if ¬ ctx.eveningTwi ≤ jd then .error ("Night not started yet.")
  else if ¬ ctx.table.length = observed.length then
    .error ("observed array and tiledb do not match.")
  else
    if (validIdxL ctx jd observed).isEmpty then
      .ok (sentinel (ctx.lstOf jd) ctx.lunation)
    else
      selLoop (selArgsOf ctx jd observed)
        (uniqueDesc (effPrioL ctx observed (validIdxL ctx jd observed)))

/-- `get_optimal_tile` with the caller-visible state threaded through:
besides the returned tuple, the `TargetPriority` column of the tile table
and the `observed` array as the caller sees them after the call.  The
only assignment in the function body, `valid_priorities[valid_incomplete]
= maxpriority + 1` (line 205), targets `valid_priorities =
target_priorities[valid_idx]` (line 199), which numpy fancy indexing
makes a fresh copy, so the write never reaches the table column. -/
def getOptimalTileThreaded (ctx : NightContext) (jd : ℚ) (observed : List ℚ) :
    Except String SelResult × List ℤ × List ℚ :=
  let col := ctx.table.map (fun r => r.targetPriority)
  if ¬ jd < ctx.morningTwi then (.error ("Twilight reached."), col, observed)
  else if ¬ ctx.eveningTwi ≤ jd then
    (.error ("Night not started yet."), col, observed)
  else if ¬ ctx.table.length = observed.length then
    (.error ("observed array and tiledb do not match."), col, observed)
  else
    let lst := ctx.lstOf jd
    let validIdx := validIdxL ctx jd observed
    if validIdx.isEmpty then (.ok (sentinel lst ctx.lunation), col, observed)
    else
      let validPriorities := npFancyIndex col validIdx 0
      let validIncomplete := npFancyIndex
        ((List.range ctx.table.length).map
          (fun k => incompleteF ctx observed k)) validIdx false
      let effPrio := npMaskedFill validPriorities validIncomplete
        (ctx.maxpriority + 1)
      (selLoop
        { lst := lst
          lunation := ctx.lunation
          hz := hzF ctx jd observed
          altStart := altStartF ctx jd
          tilePrio := fun k => (rowOf ctx k).tilePriority
          validIdx := validIdx
          effPrio := effPrio }
        (uniqueDesc effPrio), col, observed)

/-! ## Selection lemmas -/

theorem mem_validIdxL (ctx : NightContext) (jd : ℚ) (observed : List ℚ)
    (k : ℕ) :
    k ∈ validIdxL ctx jd observed ↔
      k < ctx.table.length ∧ validMaskF ctx jd observed k = true ∧
        hzOkF ctx jd observed k = true := by
  rw [validIdxL, mem_filter_range]
  simp [Bool.and_eq_true, and_assoc]

/-- The fancy-indexed copy with the in-place override equals, valuewise,
the per-row effective priority mapped over the valid indices. -/
theorem effPrioL_eq_map (ctx : NightContext) (observed : List ℚ)
    (validIdx : List ℕ) (h : ∀ k ∈ validIdx, k < ctx.table.length) :
    effPrioL ctx observed validIdx = validIdx.map (effPrioF ctx observed) := by
  rw [effPrioL, npMaskedFill, npFancyIndex, npFancyIndex]
  rw [List.zipWith_map, List.zipWith_same]
  apply List.map_congr_left
  intro k hk
  have hkn := h k hk
  rw [getD_map (fun r => r.targetPriority) ctx.table default 0 k hkn]
  rw [getD_range_map (fun k' => incompleteF ctx observed k')
    ctx.table.length false k hkn]
  simp only [effPrioF, rowOf]

theorem mem_vpIdxL (a : SelArgs) (p : ℤ) (q : ℕ) :
    q ∈ vpIdxL a p ↔ q < a.effPrio.length ∧ a.effPrio.getD q 0 = p := by
  rw [vpIdxL, mem_filter_range]
  simp

theorem mem_hptL (a : SelArgs) (p : ℤ) (t : ℕ) :
    t ∈ hptL a p ↔ t < (vTP a p).length ∧ (vTP a p).getD t 0 = maxTP a p := by
  rw [hptL, mem_filter_range]
  simp

/-- Core specification of one returning iteration of the selection loop:
when priority `p` occurs in the class array, `selStep` picks a member of
the valid set whose effective priority is `p`, whose tile priority is
maximal in the class of `p`, and whose starting altitude is maximal among
the tile-priority maximisers of that class. -/
theorem selStep_spec (a : SelArgs) (effF : ℕ → ℤ) (p : ℤ)
    (heff : a.effPrio = a.validIdx.map effF) (hp : p ∈ a.effPrio) :
    observedIdxSel a p ∈ a.validIdx ∧
    effF (observedIdxSel a p) = p ∧
    a.tilePrio (observedIdxSel a p) = maxTP a p ∧
    obsAlt a p = a.altStart (observedIdxSel a p) ∧
    (vpIdxL a p).isEmpty = false ∧
    (∀ k ∈ a.validIdx, effF k = p →
      a.tilePrio k ≤ a.tilePrio (observedIdxSel a p) ∧
      (a.tilePrio k = a.tilePrio (observedIdxSel a p) →
        a.altStart k ≤ a.altStart (observedIdxSel a p))) := by
  have hlenEff : a.effPrio.length = a.validIdx.length := by
    rw [heff, List.length_map]
  obtain ⟨q0, hq0lt, hq0⟩ := (mem_iff_exists_getD a.effPrio 0 p).mp hp
  have hq0mem : q0 ∈ vpIdxL a p := (mem_vpIdxL a p q0).mpr ⟨hq0lt, hq0⟩
  have hvpne : vpIdxL a p ≠ [] := List.ne_nil_of_mem hq0mem
  have hlenTP : (vTP a p).length = (vpIdxL a p).length := by
    rw [vTP, List.length_map]
  have hlenATP : (vATP a p).length = (vpIdxL a p).length := by
    rw [vATP, List.length_map]
  have hvTPne : vTP a p ≠ [] := by
    rw [vTP]
    intro hc
    exact hvpne (List.map_eq_nil_iff.mp hc)
  have hmaxmem : maxTP a p ∈ vTP a p := listMaxZ_mem _ hvTPne
  obtain ⟨t0, ht0lt, ht0⟩ := (mem_iff_exists_getD (vTP a p) 0 (maxTP a p)).mp hmaxmem
  have ht0mem : t0 ∈ hptL a p := (mem_hptL a p t0).mpr ⟨ht0lt, ht0⟩
  have hhptne : hptL a p ≠ [] := List.ne_nil_of_mem ht0mem
  have hmapne : (hptL a p).map (fun t => (vATP a p).getD t 0) ≠ [] := by
    intro hc
    exact hhptne (List.map_eq_nil_iff.mp hc)
  have hobsAltlt : obsAltIdx a p < (hptL a p).length := by
    rw [obsAltIdx]
    have := argmaxFirst_lt ((hptL a p).map fun t => (vATP a p).getD t 0) hmapne
    simpa using this
  have hobsTilemem : obsTileIdx a p ∈ hptL a p := by
    rw [obsTileIdx]
    exact getD_mem _ 0 _ hobsAltlt
  have hobsTile : obsTileIdx a p < (vTP a p).length ∧
      (vTP a p).getD (obsTileIdx a p) 0 = maxTP a p :=
    (mem_hptL a p _).mp hobsTilemem
  have hq'mem : (vpIdxL a p).getD (obsTileIdx a p) 0 ∈ vpIdxL a p :=
    getD_mem _ 0 _ (hlenTP ▸ hobsTile.1)
  have hq'prop : (vpIdxL a p).getD (obsTileIdx a p) 0 < a.effPrio.length ∧
      a.effPrio.getD ((vpIdxL a p).getD (obsTileIdx a p) 0) 0 = p :=
    (mem_vpIdxL a p _).mp hq'mem
  have hq'val : (vpIdxL a p).getD (obsTileIdx a p) 0 < a.validIdx.length :=
    hlenEff ▸ hq'prop.1
  have himem : observedIdxSel a p ∈ a.validIdx := by
    rw [observedIdxSel]
    exact getD_mem _ 0 _ hq'val
  have heffi : effF (observedIdxSel a p) = p := by
    have hgd := hq'prop.2
    rw [heff] at hgd
    rw [getD_map effF a.validIdx 0 0 _ hq'val] at hgd
    exact hgd
  have hTPchain : (vTP a p).getD (obsTileIdx a p) 0 =
      a.tilePrio (observedIdxSel a p) := by
    rw [vTP, getD_map (fun q => (validTPL a).getD q 0) (vpIdxL a p) 0 0 _
      (hlenTP ▸ hobsTile.1)]
    rw [validTPL, getD_map a.tilePrio a.validIdx 0 0 _ hq'val]
    rfl
  have htilei : a.tilePrio (observedIdxSel a p) = maxTP a p := by
    rw [← hTPchain]
    exact hobsTile.2
  have halti : obsAlt a p = a.altStart (observedIdxSel a p) := by
    rw [obsAlt, vATP, getD_map (fun q => (validAltL a).getD q 0) (vpIdxL a p)
      0 0 _ (hlenTP ▸ hobsTile.1)]
    rw [validAltL, getD_map a.altStart a.validIdx 0 0 _ hq'val]
    rfl
  refine ⟨himem, heffi, htilei, halti, ?_, ?_⟩
  · cases hvp : vpIdxL a p with
    | nil => exact absurd hvp hvpne
    | cons z zs => simp [hvp]
  intro k hk hkp
  obtain ⟨q, hqlt, hqk⟩ := (mem_iff_exists_getD a.validIdx 0 k).mp hk
  have hqe : a.effPrio.getD q 0 = p := by
    rw [heff, getD_map effF a.validIdx 0 0 q hqlt, hqk, hkp]
  have hqmem : q ∈ vpIdxL a p := (mem_vpIdxL a p q).mpr ⟨hlenEff ▸ hqlt, hqe⟩
  obtain ⟨t, htlt, htq⟩ := (mem_iff_exists_getD (vpIdxL a p) 0 q).mp hqmem
  have hvTPt : (vTP a p).getD t 0 = a.tilePrio k := by
    rw [vTP, getD_map (fun q' => (validTPL a).getD q' 0) (vpIdxL a p) 0 0 t htlt,
      htq, validTPL, getD_map a.tilePrio a.validIdx 0 0 q hqlt, hqk]
  have htlt' : t < (vTP a p).length := hlenTP ▸ htlt
  constructor
  · rw [htilei, maxTP, ← hvTPt]
    exact le_listMaxZ _ _ (getD_mem _ 0 t htlt')
  · intro heq
    have htmax : (vTP a p).getD t 0 = maxTP a p := by
      rw [hvTPt, heq, htilei]
    have htmem : t ∈ hptL a p := (mem_hptL a p t).mpr ⟨htlt', htmax⟩
    obtain ⟨u, hult, hut⟩ := (mem_iff_exists_getD (hptL a p) 0 t).mp htmem
    have hvATPt : (vATP a p).getD t 0 = a.altStart k := by
      rw [vATP, getD_map (fun q' => (validAltL a).getD q' 0) (vpIdxL a p) 0 0 t htlt,
        htq, validAltL, getD_map a.altStart a.validIdx 0 0 q hqlt, hqk]
    have hmap : ((hptL a p).map (fun t' => (vATP a p).getD t' 0)).getD u 0 =
        a.altStart k := by
      rw [getD_map (fun t' => (vATP a p).getD t' 0) (hptL a p) 0 0 u hult, hut,
        hvATPt]
    have harg := getD_le_argmaxFirst
      ((hptL a p).map (fun t' => (vATP a p).getD t' 0)) u (by simpa using hult)
    rw [hmap] at harg
    have hrhs : ((hptL a p).map (fun t' => (vATP a p).getD t' 0)).getD
        (argmaxFirst ((hptL a p).map (fun t' => (vATP a p).getD t' 0))) 0 =
          obsAlt a p := by
      rw [getD_map (fun t' => (vATP a p).getD t' 0) (hptL a p) 0 0 _
        (by rw [← obsAltIdx]; exact hobsAltlt)]
      rw [obsAlt, obsTileIdx, obsAltIdx]
    rw [hrhs, halti] at harg
    exact harg

/-- A priority class that occurs returns immediately (the `continue`
branch is not taken). -/
theorem selLoop_cons_eq (a : SelArgs) (p : ℤ) (rest : List ℤ)
    (hne : (vpIdxL a p).isEmpty = false) :
    selLoop a (p :: rest) = selStep a p := by
  rw [selLoop]
  simp [hne]

theorem isEmpty_false_of_ne_nil {α : Type} (l : List α) (h : l ≠ []) :
    l.isEmpty = false := by
  cases l with
  | nil => exact absurd rfl h
  | cons x xs => rfl

/-- With the three preconditions satisfied and a non-empty valid set,
`get_optimal_tile` returns from the first iteration of the priority loop
the valid tile that is maximal in the order: effective priority, then
tile priority, then starting altitude. -/
theorem getOptimalTile_sel_spec (ctx : NightContext) (jd : ℚ)
    (observed : List ℚ)
    (h1 : jd < ctx.morningTwi) (h2 : ctx.eveningTwi ≤ jd)
    (h3 : ctx.table.length = observed.length)
    (hne : validIdxL ctx jd observed ≠ []) :
    ∃ i, i ∈ validIdxL ctx jd observed ∧
      getOptimalTile ctx jd observed =
        .ok ⟨(i : ℤ), ctx.lstOf jd, hzF ctx jd observed i,
          altStartF ctx jd i, ctx.lunation⟩ ∧
      (∀ k ∈ validIdxL ctx jd observed,
        effPrioF ctx observed k ≤ effPrioF ctx observed i ∧
        (effPrioF ctx observed k = effPrioF ctx observed i →
          (rowOf ctx k).tilePriority ≤ (rowOf ctx i).tilePriority ∧
          ((rowOf ctx k).tilePriority = (rowOf ctx i).tilePriority →
            altStartF ctx jd k ≤ altStartF ctx jd i))) := by
  have hbound : ∀ k ∈ validIdxL ctx jd observed, k < ctx.table.length :=
    fun k hk => ((mem_validIdxL ctx jd observed k).mp hk).1
  have heff : (selArgsOf ctx jd observed).effPrio =
      (selArgsOf ctx jd observed).validIdx.map (effPrioF ctx observed) := by
    simp only [selArgsOf]
    exact effPrioL_eq_map ctx observed _ hbound
  have heffne : (selArgsOf ctx jd observed).effPrio ≠ [] := by
    rw [heff]
    simp only [selArgsOf, ne_eq, List.map_eq_nil_iff]
    exact hne
  obtain ⟨p0, rest, hud⟩ : ∃ p0 rest,
      uniqueDesc (selArgsOf ctx jd observed).effPrio = p0 :: rest := by
    cases hu : uniqueDesc (selArgsOf ctx jd observed).effPrio with
    | nil => exact absurd ((uniqueDesc_eq_nil_iff _).mp hu) heffne
    | cons z zs => exact ⟨z, zs, rfl⟩
  have hp0mem : p0 ∈ (selArgsOf ctx jd observed).effPrio := by
    have := headD_uniqueDesc_mem (selArgsOf ctx jd observed).effPrio 0 heffne
    rw [hud] at this
    simpa using this
  have hp0max : ∀ x ∈ (selArgsOf ctx jd observed).effPrio, x ≤ p0 := by
    intro x hx
    have := le_headD_uniqueDesc (selArgsOf ctx jd observed).effPrio x 0 hx
    rw [hud] at this
    simpa using this
  obtain ⟨himem, heffi, _, halti, hvpne, hmaxi⟩ :=
    selStep_spec (selArgsOf ctx jd observed) (effPrioF ctx observed) p0
      heff hp0mem
  have hie : (validIdxL ctx jd observed).isEmpty = false :=
    isEmpty_false_of_ne_nil _ hne
  have hgo : getOptimalTile ctx jd observed =
      selLoop (selArgsOf ctx jd observed)
        (uniqueDesc (selArgsOf ctx jd observed).effPrio) := by
    rw [getOptimalTile]
    rw [if_neg (not_not_intro h1), if_neg (not_not_intro h2),
      if_neg (not_not_intro h3)]
    simp only [hie, Bool.false_eq_true, if_false]
    rfl
  rw [hud] at hgo
  rw [selLoop_cons_eq (selArgsOf ctx jd observed) p0 rest hvpne] at hgo
  refine ⟨observedIdxSel (selArgsOf ctx jd observed) p0, himem, ?_, ?_⟩
  · rw [hgo, selStep]
    rw [halti]
    rfl
  · intro k hk
    have hkm : effPrioF ctx observed k ∈ (selArgsOf ctx jd observed).effPrio := by
      rw [heff]
      exact List.mem_map_of_mem (effPrioF ctx observed) hk
    have hkle : effPrioF ctx observed k ≤ p0 := hp0max _ hkm
    rw [heffi]
    refine ⟨hkle, ?_⟩
    intro hkeq
    exact hmaxi k hk hkeq

/-- With the preconditions satisfied and an empty valid set, the sentinel
is returned (line 189). -/
theorem getOptimalTile_sentinel (ctx : NightContext) (jd : ℚ)
    (observed : List ℚ)
    (h1 : jd < ctx.morningTwi) (h2 : ctx.eveningTwi ≤ jd)
    (h3 : ctx.table.length = observed.length)
    (hempty : validIdxL ctx jd observed = []) :
    getOptimalTile ctx jd observed =
      .ok (sentinel (ctx.lstOf jd) ctx.lunation) := by
  rw [getOptimalTile, if_neg (not_not_intro h1), if_neg (not_not_intro h2),
    if_neg (not_not_intro h3)]
  simp [hempty]

/-- Totality under the preconditions: either the sentinel or a selected
tile, never an error (in particular never the loop fall-through). -/
theorem getOptimalTile_total (ctx : NightContext) (jd : ℚ) (observed : List ℚ)
    (h1 : jd < ctx.morningTwi) (h2 : ctx.eveningTwi ≤ jd)
    (h3 : ctx.table.length = observed.length) :
    ∃ r, getOptimalTile ctx jd observed = .ok r := by
  by_cases hv : validIdxL ctx jd observed = []
  · exact ⟨_, getOptimalTile_sentinel ctx jd observed h1 h2 h3 hv⟩
  · obtain ⟨i, _, hres, _⟩ := getOptimalTile_sel_spec ctx jd observed h1 h2 h3 hv
    exact ⟨_, hres⟩

theorem getOptimalTile_error_morning (ctx : NightContext) (jd : ℚ)
    (observed : List ℚ) (h : ctx.morningTwi ≤ jd) :
    getOptimalTile ctx jd observed = .error ("Twilight reached.") := by
  rw [getOptimalTile, if_pos (not_lt.mpr h)]

theorem getOptimalTile_error_evening (ctx : NightContext) (jd : ℚ)
    (observed : List ℚ) (h1 : jd < ctx.morningTwi) (h : jd < ctx.eveningTwi) :
    getOptimalTile ctx jd observed = .error ("Night not started yet.") := by
  rw [getOptimalTile, if_neg (not_not_intro h1), if_pos (not_le.mpr h)]

theorem getOptimalTile_error_length (ctx : NightContext) (jd : ℚ)
    (observed : List ℚ) (h1 : jd < ctx.morningTwi) (h2 : ctx.eveningTwi ≤ jd)
    (h : ctx.table.length ≠ observed.length) :
    getOptimalTile ctx jd observed =
      .error ("observed array and tiledb do not match.") := by
  rw [getOptimalTile, if_neg (not_not_intro h1), if_neg (not_not_intro h2),
    if_pos h]

/-- A successful return implies the three preconditions held. -/
theorem preconds_of_ok (ctx : NightContext) (jd : ℚ) (observed : List ℚ)
    (r : SelResult) (hres : getOptimalTile ctx jd observed = .ok r) :
    jd < ctx.morningTwi ∧ ctx.eveningTwi ≤ jd ∧
      ctx.table.length = observed.length := by
  by_cases h1 : jd < ctx.morningTwi
  · by_cases h2 : ctx.eveningTwi ≤ jd
    · by_cases h3 : ctx.table.length = observed.length
      · exact ⟨h1, h2, h3⟩
      · rw [getOptimalTile_error_length ctx jd observed h1 h2 h3] at hres
        exact Except.noConfusion hres
    · rw [getOptimalTile_error_evening ctx jd observed h1 (not_le.mp h2)] at hres
      exact Except.noConfusion hres
  · rw [getOptimalTile_error_morning ctx jd observed (not_lt.mp h1)] at hres
    exact Except.noConfusion hres

/-- A returned non-sentinel index means the valid set was non-empty. -/
theorem valid_ne_nil_of_idx_nonneg (ctx : NightContext) (jd : ℚ)
    (observed : List ℚ) (r : SelResult)
    (hres : getOptimalTile ctx jd observed = .ok r) (hidx : 0 ≤ r.idx) :
    validIdxL ctx jd observed ≠ [] := by
  intro hv
  obtain ⟨h1, h2, h3⟩ := preconds_of_ok ctx jd observed r hres
  rw [getOptimalTile_sentinel ctx jd observed h1 h2 h3 hv] at hres
  have hr : sentinel (ctx.lstOf jd) ctx.lunation = r := Except.ok.inj hres
  rw [← hr] at hidx
  exact absurd hidx (by norm_num [sentinel])

/-- Lexicographic comparison of the selection key
(effective priority, tile priority, starting altitude). -/
def lexLe (x y : ℤ × ℤ × ℚ) : Prop :=
  x.1 < y.1 ∨ (x.1 = y.1 ∧ (x.2.1 < y.2.1 ∨ (x.2.1 = y.2.1 ∧ x.2.2 ≤ y.2.2)))

instance (x y : ℤ × ℤ × ℚ) : Decidable (lexLe x y) := by
  rw [lexLe]
  infer_instance

/-- Claim C1: whenever `get_optimal_tile` on a context prepared by
`prepare_for_night` returns a tile index (not the sentinel `-1`), that
tile's start and end altitudes are below `90 - zenith_avoidance`, both
exceed the minimum altitude `90 - rad2deg(arccos(1/AirmassLimit))`
derived from its airmass limit, its moon distance exceeds its
moon-distance limit while the night's lunation is within its lunation
limit, its shadow height strictly exceeds its shadow-height limit, and
its accumulated observed exposure is strictly below its total required
exposure. -/
theorem C1_returned_tile_passes_all_predicates (astro : Astro) (za : ℚ)
    (night : NightPlanRow) (targets : List Target) (table : List TileRow)
    (ctx : NightContext) (jd : ℚ) (observed : List ℚ) (r : SelResult)
    (hctx : ctx = prepareForNight astro za night targets table)
    (hres : getOptimalTile ctx jd observed = .ok r)
    (hidx : 0 ≤ r.idx) :
    altStartF ctx jd r.idx.toNat < 90 - za ∧
    altEndF ctx jd r.idx.toNat < 90 - za ∧
    altStartF ctx jd r.idx.toNat >
      90 - astro.arccosDeg (1 / (rowOf ctx r.idx.toNat).airmassLimit) ∧
    altEndF ctx jd r.idx.toNat >
      90 - astro.arccosDeg (1 / (rowOf ctx r.idx.toNat).airmassLimit) ∧
    astro.greatCircleDist night.moonRa night.moonDec
        (rowOf ctx r.idx.toNat).ra (rowOf ctx r.idx.toNat).dec >
      (rowOf ctx r.idx.toNat).moonDistanceLimit ∧
    night.moonPhase ≤ (rowOf ctx r.idx.toNat).lunationLimit ∧
    ctx.shadowAt jd r.idx.toNat > (rowOf ctx r.idx.toNat).hzLimit ∧
    observed.getD r.idx.toNat 0 < (rowOf ctx r.idx.toNat).totalExptime := by
  obtain ⟨h1, h2, h3⟩ := preconds_of_ok ctx jd observed r hres
  have hvne := valid_ne_nil_of_idx_nonneg ctx jd observed r hres hidx
  obtain ⟨i, himem, hres', _⟩ :=
    getOptimalTile_sel_spec ctx jd observed h1 h2 h3 hvne
  rw [hres'] at hres
  have hr : r = ⟨(i : ℤ), ctx.lstOf jd, hzF ctx jd observed i,
      altStartF ctx jd i, ctx.lunation⟩ := (Except.ok.inj hres).symm
  have hidxi : r.idx.toNat = i := by rw [hr]; simp
  rw [hidxi]
  obtain ⟨hbound, hmask, hhz⟩ := (mem_validIdxL ctx jd observed i).mp himem
  have hmask' := hmask
  rw [validMaskF] at hmask'
  simp only [Bool.and_eq_true] at hmask'
  obtain ⟨⟨⟨haltok, hmoonok⟩, hairok⟩, hexpok⟩ := hmask'
  rw [altOkF] at haltok
  simp only [Bool.and_eq_true, decide_eq_true_eq] at haltok
  rw [airmassOkF] at hairok
  simp only [Bool.and_eq_true, decide_eq_true_eq] at hairok
  rw [exptimeOkF] at hexpok
  simp only [decide_eq_true_eq] at hexpok
  rw [hzOkF] at hhz
  simp only [decide_eq_true_eq] at hhz
  rw [hzF, if_pos hmask] at hhz
  subst hctx
  simp only [prepareForNight] at hmoonok hairok
  simp only [Bool.and_eq_true, decide_eq_true_eq] at hmoonok
  exact ⟨haltok.1, haltok.2, hairok.1, hairok.2, hmoonok.1, hmoonok.2, hhz,
    hexpok⟩

/-- Claim C3: when `get_optimal_tile` returns a tile index, the returned
tile is lexicographically maximal among the valid tiles in the key
(effective priority, tile priority, starting altitude), the effective
priority of every partially observed tile is `maxpriority + 1`, and
(whenever all target priorities are bounded by `maxpriority`, as
`prepare_for_night` computes it) every partially observed valid tile
strictly outranks every not-yet-started valid tile. -/
theorem C3_lexicographic_selection (ctx : NightContext) (jd : ℚ)
    (observed : List ℚ) (r : SelResult)
    (hmax : ∀ k, k < ctx.table.length →
      (rowOf ctx k).targetPriority ≤ ctx.maxpriority)
    (hres : getOptimalTile ctx jd observed = .ok r)
    (hidx : 0 ≤ r.idx) :
    r.idx.toNat ∈ validIdxL ctx jd observed ∧
    (∀ k ∈ validIdxL ctx jd observed,
      lexLe (effPrioF ctx observed k, (rowOf ctx k).tilePriority,
          altStartF ctx jd k)
        (effPrioF ctx observed r.idx.toNat,
          (rowOf ctx r.idx.toNat).tilePriority,
          altStartF ctx jd r.idx.toNat)) ∧
    (∀ k, incompleteF ctx observed k = true →
      effPrioF ctx observed k = ctx.maxpriority + 1) ∧
    (∀ j k, j ∈ validIdxL ctx jd observed → k ∈ validIdxL ctx jd observed →
      incompleteF ctx observed j = true → incompleteF ctx observed k = false →
      effPrioF ctx observed k < effPrioF ctx observed j) := by
  obtain ⟨h1, h2, h3⟩ := preconds_of_ok ctx jd observed r hres
  have hvne := valid_ne_nil_of_idx_nonneg ctx jd observed r hres hidx
  obtain ⟨i, himem, hres', hspec⟩ :=
    getOptimalTile_sel_spec ctx jd observed h1 h2 h3 hvne
  rw [hres'] at hres
  have hr : r = ⟨(i : ℤ), ctx.lstOf jd, hzF ctx jd observed i,
      altStartF ctx jd i, ctx.lunation⟩ := (Except.ok.inj hres).symm
  have hidxi : r.idx.toNat = i := by rw [hr]; simp
  rw [hidxi]
  refine ⟨himem, ?_, ?_, ?_⟩
  · intro k hk
    obtain ⟨hle, hrest⟩ := hspec k hk
    rcases lt_or_eq_of_le hle with hlt | heq
    · exact Or.inl hlt
    · obtain ⟨htle, htrest⟩ := hrest heq
      rcases lt_or_eq_of_le htle with htlt | hteq
      · exact Or.inr ⟨heq, Or.inl htlt⟩
      · exact Or.inr ⟨heq, Or.inr ⟨hteq, htrest hteq⟩⟩
  · intro k hk
    rw [effPrioF, if_pos hk]
  · intro j k hj hk hjinc hkinc
    have hkn : k < ctx.table.length := ((mem_validIdxL ctx jd observed k).mp hk).1
    have hje : effPrioF ctx observed j = ctx.maxpriority + 1 := by
      rw [effPrioF, if_pos hjinc]
    have hke : effPrioF ctx observed k = (rowOf ctx k).targetPriority := by
      rw [effPrioF, if_neg (by rw [hkinc]; exact Bool.false_ne_true)]
    rw [hje, hke]
    exact lt_of_le_of_lt (hmax k hkn) (lt_add_one ctx.maxpriority)

/-- Claim C5: a call at exactly the evening twilight proceeds and returns
a result; a call at or past the morning twilight, before the evening
twilight, or with a mismatched observed-exposure array fails with the
corresponding assertion error. -/
theorem C5_preconditions_boundary (ctx : NightContext) (jd : ℚ)
    (observed : List ℚ) :
    (ctx.eveningTwi < ctx.morningTwi → ctx.table.length = observed.length →
      ∃ r, getOptimalTile ctx ctx.eveningTwi observed = .ok r) ∧
    (ctx.morningTwi ≤ jd →
      getOptimalTile ctx jd observed = .error ("Twilight reached.")) ∧
    (jd < ctx.morningTwi → jd < ctx.eveningTwi →
      getOptimalTile ctx jd observed = .error ("Night not started yet.")) ∧
    (jd < ctx.morningTwi → ctx.eveningTwi ≤ jd →
      ctx.table.length ≠ observed.length →
      getOptimalTile ctx jd observed =
        .error ("observed array and tiledb do not match.")) := by
  refine ⟨?_, ?_, ?_, ?_⟩
  · intro hlt hlen
    exact getOptimalTile_total ctx ctx.eveningTwi observed hlt (le_refl _) hlen
  · intro h
    exact getOptimalTile_error_morning ctx jd observed h
  · intro h1 h
    exact getOptimalTile_error_evening ctx jd observed h1 h
  · intro h1 h2 h
    exact getOptimalTile_error_length ctx jd observed h1 h2 h

/-- Claim C6: when no tile passes the combined validity mask, the call
returns the sentinel `(-1, lst, 0, 0, lunation)` and no error. -/
theorem C6_no_valid_tile_returns_sentinel (ctx : NightContext) (jd : ℚ)
    (observed : List ℚ)
    (h1 : jd < ctx.morningTwi) (h2 : ctx.eveningTwi ≤ jd)
    (h3 : ctx.table.length = observed.length)
    (hnone : ∀ k, k < ctx.table.length →
      validMaskF ctx jd observed k = false) :
    getOptimalTile ctx jd observed =
      .ok ⟨-1, ctx.lstOf jd, 0, 0, ctx.lunation⟩ := by
  have hempty : validIdxL ctx jd observed = [] := by
    rw [validIdxL]
    rw [List.filter_eq_nil_iff]
    intro k hk
    have := hnone k (List.mem_range.mp hk)
    simp [this]
  rw [getOptimalTile_sentinel ctx jd observed h1 h2 h3 hempty]
  rfl

/-- The threaded call is the plain call together with the untouched
`TargetPriority` column and `observed` array. -/
theorem getOptimalTileThreaded_eq (ctx : NightContext) (jd : ℚ)
    (observed : List ℚ) :
    getOptimalTileThreaded ctx jd observed =
      (getOptimalTile ctx jd observed,
        ctx.table.map (fun r => r.targetPriority), observed) := by
  unfold getOptimalTileThreaded getOptimalTile selArgsOf effPrioL
  split
  · rfl
  · split
    · rfl
    · split
      · rfl
      · dsimp only
        split
        · rfl
        · rfl

/-- Claim C7: calling `get_optimal_tile` again at the same time with the
observed-exposure array as left by the previous call returns the
identical result (index, sidereal time, shadow height, altitude and
lunation) and the identical caller-visible state. -/
theorem C7_idempotent_call (ctx : NightContext) (jd : ℚ)
    (observed : List ℚ) :
    getOptimalTileThreaded ctx jd
        ((getOptimalTileThreaded ctx jd observed).2.2) =
      getOptimalTileThreaded ctx jd observed := by
  have hobs : (getOptimalTileThreaded ctx jd observed).2.2 = observed := by
    rw [getOptimalTileThreaded_eq]
  rw [hobs]

/-- Claim C8: a call of `get_optimal_tile` leaves the caller-supplied
`observed` array and the tile table's `TargetPriority` column exactly as
it found them (the priority override hits only the fancy-indexed copy),
and its result is the pure selection of the inputs. -/
theorem C8_no_caller_visible_mutation (ctx : NightContext) (jd : ℚ)
    (observed : List ℚ) :
    (getOptimalTileThreaded ctx jd observed).2.1 =
      ctx.table.map (fun r => r.targetPriority) ∧
    (getOptimalTileThreaded ctx jd observed).2.2 = observed ∧
    (getOptimalTileThreaded ctx jd observed).1 =
      getOptimalTile ctx jd observed := by
  rw [getOptimalTileThreaded_eq]
  exact ⟨rfl, rfl, rfl⟩

/-- Claim C10: under the preconditions `get_optimal_tile` always returns
a result — the sentinel or a tile — and the `assert False, "Unreachable
code!"` after the loop is indeed unreachable: with a non-empty valid set
the loop returns already during its first iteration (on the head of the
descending priority list), whatever priorities follow. -/
theorem C10_loop_total_first_iteration (ctx : NightContext) (jd : ℚ)
    (observed : List ℚ)
    (h1 : jd < ctx.morningTwi) (h2 : ctx.eveningTwi ≤ jd)
    (h3 : ctx.table.length = observed.length) :
    (∃ r, getOptimalTile ctx jd observed = .ok r) ∧
    (validIdxL ctx jd observed ≠ [] → ∀ rest : List ℤ,
      ∃ r, selLoop (selArgsOf ctx jd observed)
        (((uniqueDesc (selArgsOf ctx jd observed).effPrio).headD 0) :: rest) =
          .ok r) := by
  refine ⟨getOptimalTile_total ctx jd observed h1 h2 h3, ?_⟩
  intro hne rest
  have hbound : ∀ k ∈ validIdxL ctx jd observed, k < ctx.table.length :=
    fun k hk => ((mem_validIdxL ctx jd observed k).mp hk).1
  have heff : (selArgsOf ctx jd observed).effPrio =
      (selArgsOf ctx jd observed).validIdx.map (effPrioF ctx observed) := by
    simp only [selArgsOf]
    exact effPrioL_eq_map ctx observed _ hbound
  have heffne : (selArgsOf ctx jd observed).effPrio ≠ [] := by
    rw [heff]
    simp only [selArgsOf, ne_eq, List.map_eq_nil_iff]
    exact hne
  have hp0mem : (uniqueDesc (selArgsOf ctx jd observed).effPrio).headD 0 ∈
      (selArgsOf ctx jd observed).effPrio :=
    headD_uniqueDesc_mem _ 0 heffne
  obtain ⟨_, _, _, _, hvpne, _⟩ :=
    selStep_spec (selArgsOf ctx jd observed) (effPrioF ctx observed) _
      heff hp0mem
  rw [selLoop_cons_eq (selArgsOf ctx jd observed) _ rest hvpne]
  exact ⟨_, rfl⟩

/-! ## Concrete witness scenario: two targets (priorities 5 and 3), one
tile each, all predicates passing at `jd = 0` (the evening twilight). -/

def wAstro : Astro :=
  ⟨fun jd _ => jd, fun _ _ dec _ => 50 + dec, fun _ ra _ => 1000 + ra,
   fun _ _ _ _ => 100, fun _ => 60⟩

def wTargets : List Target :=
  [⟨"A", "LVM", 5, 2, 1, 100, 10, 900, 1, 1, true⟩,
   ⟨"B", "LVM", 3, 2, 1, 100, 10, 900, 1, 1, true⟩]

def wTiles : List (List Tile) :=
  [[⟨0, 0, 0, 1⟩], [⟨10, 5, 0, 2⟩]]

def wTable : List TileRow := createTileTable wTargets wTiles 10

def wNight : NightPlanRow := ⟨0, 1, 1/2, 0, 0, 0, 0⟩

def wCtx : NightContext := prepareForNight wAstro 10 wNight wTargets wTable

def wRes : SelResult := ⟨0, 0, 1000, 50, 1/2⟩

/-- Same scenario with a moon-distance provider that puts the Moon on top
of every tile, so every tile fails the moon-distance predicate. -/
def wAstroMoon : Astro :=
  ⟨fun jd _ => jd, fun _ _ dec _ => 50 + dec, fun _ ra _ => 1000 + ra,
   fun _ _ _ _ => 0, fun _ => 60⟩

def wCtxMoon : NightContext :=
  prepareForNight wAstroMoon 10 wNight wTargets wTable

theorem C1_witness :
    wCtx = prepareForNight wAstro 10 wNight wTargets wTable ∧
    getOptimalTile wCtx 0 [0, 0] = .ok wRes ∧ (0 : ℤ) ≤ wRes.idx ∧
    altStartF wCtx 0 wRes.idx.toNat < 90 - 10 :=
  ⟨rfl, by decide, by decide,
    (C1_returned_tile_passes_all_predicates wAstro 10 wNight wTargets
      wTable wCtx 0 [0, 0] wRes rfl (by decide) (by decide)).1⟩

theorem C3_witness :
    (∀ k, k < wCtx.table.length →
      (rowOf wCtx k).targetPriority ≤ wCtx.maxpriority) ∧
    getOptimalTile wCtx 0 [0, 0] = .ok wRes ∧ (0 : ℤ) ≤ wRes.idx ∧
    wRes.idx.toNat ∈ validIdxL wCtx 0 [0, 0] :=
  ⟨by decide, by decide, by decide,
    (C3_lexicographic_selection wCtx 0 [0, 0] wRes (by decide) (by decide)
      (by decide)).1⟩

theorem C5_witness :
    wCtx.eveningTwi < wCtx.morningTwi ∧
    wCtx.table.length = [(0 : ℚ), 0].length ∧
    wCtx.morningTwi ≤ 2 ∧
    (∃ r, getOptimalTile wCtx wCtx.eveningTwi [0, 0] = .ok r) ∧
    getOptimalTile wCtx 2 [0, 0] = .error ("Twilight reached.") :=
  ⟨by decide, by decide, by decide,
    (C5_preconditions_boundary wCtx 2 [0, 0]).1 (by decide) (by decide),
    (C5_preconditions_boundary wCtx 2 [0, 0]).2.1 (by decide)⟩

theorem C6_witness :
    ((0 : ℚ) < wCtxMoon.morningTwi ∧ wCtxMoon.eveningTwi ≤ 0 ∧
      wCtxMoon.table.length = [(0 : ℚ), 0].length ∧
      (∀ k, k < wCtxMoon.table.length →
        validMaskF wCtxMoon 0 [0, 0] k = false)) ∧
    getOptimalTile wCtxMoon 0 [0, 0] =
      .ok ⟨-1, wCtxMoon.lstOf 0, 0, 0, wCtxMoon.lunation⟩ :=
  ⟨⟨by decide, by decide, by decide, by decide⟩,
    C6_no_valid_tile_returns_sentinel wCtxMoon 0 [0, 0] (by decide)
      (by decide) (by decide) (by decide)⟩

theorem C10_witness :
    ((0 : ℚ) < wCtx.morningTwi ∧ wCtx.eveningTwi ≤ 0 ∧
      wCtx.table.length = [(0 : ℚ), 0].length) ∧
    (∃ r, getOptimalTile wCtx 0 [0, 0] = .ok r) :=
  ⟨⟨by decide, by decide, by decide⟩,
    (C10_loop_total_first_iteration wCtx 0 [0, 0] (by decide) (by decide)
      (by decide)).1⟩

/-! ## Catalog builder lemmas -/

theorem range_map_getD {α β : Type} (l : List α) (d : α) (h : α → β) :
    (List.range l.length).map (fun i => h (l.getD i d)) = l.map h := by
  apply List.ext_getElem
  · simp
  · intro i h1 h2
    rw [List.getElem_map, List.getElem_map, List.getElem_range,
      getD_eq_getElem l d i (by simpa using h2)]

theorem length_tilesFlat (tiles : List (List Tile)) :
    (tilesFlat tiles).length = (tiles.map List.length).sum := by
  rw [tilesFlat, List.length_flatMap]
  congr 1
  rw [← range_map_getD tiles [] List.length]
  apply List.map_congr_left
  intro i _
  simp

theorem length_createTileTable (targets : List Target)
    (tiles : List (List Tile)) (tileidStart : ℤ) :
    (createTileTable targets tiles tileidStart).length =
      (tiles.map List.length).sum := by
  rw [createTileTable, List.length_map, List.enum_length, length_tilesFlat]

theorem createTileTable_getElem_tileID (targets : List Target)
    (tiles : List (List Tile)) (tileidStart : ℤ) (m : ℕ)
    (hm : m < (createTileTable targets tiles tileidStart).length) :
    ((createTileTable targets tiles tileidStart)[m]).tileID =
      tileidStart + m := by
  simp only [createTileTable, List.getElem_map, List.getElem_enum]

/-- Claim C4: tile identifiers are assigned sequentially and contiguously
from `tileid_start` (hence unique), the row count is the sum of the
surviving per-target tile counts, and a negative `tileid_start` fails the
constructor assertion with an error. -/
theorem C4_catalog_ids_rows_negative_start (targets : List Target)
    (tiles : List (List Tile)) (tileidStart : ℤ) (configStart : ℤ) :
    (∀ m, m < (createTileTable targets tiles tileidStart).length →
      ((createTileTable targets tiles tileidStart).getD m default).tileID =
        tileidStart + m) ∧
    ((createTileTable targets tiles tileidStart).map
      (fun r => r.tileID)).Nodup ∧
    (createTileTable targets tiles tileidStart).length =
      (tiles.map List.length).sum ∧
    (∀ v : ℤ, v < 0 → mkTileDB targets (some v) configStart =
      .error ("tileid_start value invalid, must be 0 or greater integer")) := by
  refine ⟨?_, ?_, length_createTileTable targets tiles tileidStart, ?_⟩
  · intro m hm
    rw [getD_eq_getElem _ default m hm]
    exact createTileTable_getElem_tileID targets tiles tileidStart m hm
  · have hids : (createTileTable targets tiles tileidStart).map
        (fun r => r.tileID) =
          (List.range (createTileTable targets tiles tileidStart).length).map
            (fun m : ℕ => tileidStart + (m : ℤ)) := by
      apply List.ext_getElem
      · simp
      · intro i h1 h2
        rw [List.getElem_map, List.getElem_map, List.getElem_range]
        exact createTileTable_getElem_tileID targets tiles tileidStart i
          (by simpa using h1)
    rw [hids]
    apply List.Nodup.map
    · intro a b hab
      simp only [add_right_inj, Nat.cast_inj] at hab
      exact hab
    · exact List.nodup_range _
  · intro v hv
    have h0 : ¬ v = 0 := by omega
    have h1 : ¬ v > -1 := by omega
    simp [mkTileDB, h0, h1]

theorem C4_witness :
    (createTileTable wTargets wTiles 10).length = 2 ∧
    ((createTileTable wTargets wTiles 10).getD 0 default).tileID = 10 ∧
    (-5 : ℤ) < 0 ∧
    mkTileDB wTargets (some (-5)) 1000 =
      .error ("tileid_start value invalid, must be 0 or greater integer") :=
  ⟨by decide, by decide, by decide,
    (C4_catalog_ids_rows_negative_start wTargets wTiles 10 1000).2.2.2 (-5)
      (by decide)⟩

/-! ## Overlap removal lemmas -/

/-- Claim C9: when overlap resolution leaves target `ii` with zero
remaining tiles, `remove_overlap` records the non-fatal warning for that
target, keeps its (empty) tile list, and still gives every target its
mask-compressed tile list — it completes without an error. -/
theorem C9_fully_overlapped_target_warns (geo : Geometry)
    (targets : List Target) (tiles : List (List Tile)) (ii : ℕ)
    (hii : ii < tiles.length)
    (hempty : compress (tiles.getD ii [])
      ((getOverlap geo targets tiles).getD ii []) = []) :
    (targets.getD ii default).name ∈
      (removeOverlap geo targets tiles).warned ∧
    (removeOverlap geo targets tiles).tiles.getD ii [] = [] ∧
    (∀ j, j < tiles.length →
      (removeOverlap geo targets tiles).tiles.getD j [] =
        compress (tiles.getD j [])
          ((getOverlap geo targets tiles).getD j [])) := by
  have htiles : ∀ j, j < tiles.length →
      (removeOverlap geo targets tiles).tiles.getD j [] =
        compress (tiles.getD j [])
          ((getOverlap geo targets tiles).getD j []) := by
    intro j hj
    simp only [removeOverlap]
    exact getD_range_map _ _ [] j hj
  refine ⟨?_, ?_, htiles⟩
  · simp only [removeOverlap]
    apply List.mem_filterMap.mpr
    refine ⟨ii, List.mem_range.mpr hii, ?_⟩
    rw [getD_range_map (fun i =>
      compress (tiles.getD i []) ((getOverlap geo targets tiles).getD i []))
      tiles.length [] ii hii]
    rw [hempty]
    rfl
  · rw [htiles ii hii, hempty]

/-- Scenario for the warning: two targets with priorities 10 and 5,
fully intersecting, the higher-priority polygon containing the
lower-priority target's only tile. -/
def c9Geo : Geometry := ⟨fun _ _ => true, fun i _ _ => decide (i = 0)⟩

def c9Targets : List Target :=
  [⟨"A", "LVM", 10, 2, 1, 100, 10, 900, 1, 1, true⟩,
   ⟨"B", "LVM", 5, 2, 1, 100, 10, 900, 1, 1, true⟩]

def c9Tiles : List (List Tile) := [[⟨0, 0, 0, 1⟩], [⟨10, 5, 0, 2⟩]]

theorem C9_witness :
    (1 < c9Tiles.length ∧
      compress (c9Tiles.getD 1 [])
        ((getOverlap c9Geo c9Targets c9Tiles).getD 1 []) = []) ∧
    (c9Targets.getD 1 default).name ∈
      (removeOverlap c9Geo c9Targets c9Tiles).warned :=
  ⟨⟨by decide, by decide⟩,
    (C9_fully_overlapped_target_warns c9Geo c9Targets c9Tiles 1 (by decide)
      (by decide)).1⟩

/-! ## The processing order of `get_overlap` -/

theorem getD_set_eq {α : Type} (l : List α) (n : ℕ) (x d : α)
    (h : n < l.length) : (l.set n x).getD n d = x := by
  simp [List.getD_eq_getElem?_getD, List.getElem?_set_eq_of_lt x h]

theorem getD_set_ne {α : Type} (l : List α) (n : ℕ) (x d : α) (j : ℕ)
    (h : j ≠ n) : (l.set n x).getD j d = l.getD j d := by
  simp [List.getD_eq_getElem?_getD, List.getElem?_set_ne (fun hc => h hc.symm)]

theorem getD_zipWith {α β γ : Type} (f : α → β → γ) (a : List α) (b : List β)
    (k : ℕ) (da : α) (db : β) (dg : γ)
    (h1 : k < a.length) (h2 : k < b.length) :
    (List.zipWith f a b).getD k dg = f (a.getD k da) (b.getD k db) := by
  have hk : k < (List.zipWith f a b).length := by
    simp only [List.length_zipWith]
    omega
  rw [List.getD_eq_getElem _ _ hk, List.getD_eq_getElem _ _ h1,
    List.getD_eq_getElem _ _ h2]
  exact List.getElem_zipWith ..

/-- `i` is processed before `j` by `get_overlap`: strictly higher
priority, or equal priority and later original position (the order that
`argsort(priorities)[::-1]` produces with a stable `argsort`). -/
def overlapBefore (prios : List ℤ) (i j : ℕ) : Prop :=
  prios.getD j 0 < prios.getD i 0 ∨
    (prios.getD i 0 = prios.getD j 0 ∧ j < i)

theorem overlapBefore_asymm (prios : List ℤ) (i j : ℕ)
    (h : overlapBefore prios i j) : ¬ overlapBefore prios j i := by
  rw [overlapBefore] at h ⊢
  omega

theorem overlapBefore_irrefl (prios : List ℤ) (i : ℕ) :
    ¬ overlapBefore prios i i := by
  rw [overlapBefore]
  omega

theorem keyLe_total (prios : List ℤ) (a b : ℕ) :
    keyLe prios a b = true ∨ keyLe prios b a = true := by
  rw [keyLe, keyLe]
  simp only [Bool.or_eq_true, Bool.and_eq_true, decide_eq_true_eq]
  omega

theorem mem_insertByKey (prios : List ℤ) (x a : ℕ) (l : List ℕ) :
    a ∈ insertByKey prios x l ↔ a = x ∨ a ∈ l := by
  induction l with
  | nil => simp [insertByKey]
  | cons y ys ih =>
    rw [insertByKey]
    by_cases hc : keyLe prios x y = true
    · simp [hc]
    · simp only [Bool.not_eq_true] at hc
      simp only [hc, Bool.false_eq_true, if_false, List.mem_cons, ih]
      tauto

theorem pairwise_insertByKey (prios : List ℤ) (x : ℕ) (l : List ℕ)
    (hl : l.Pairwise (fun a b => keyLe prios a b = true)) :
    (insertByKey prios x l).Pairwise (fun a b => keyLe prios a b = true) := by
  induction l with
  | nil => simp [insertByKey]
  | cons y ys ih =>
    rw [insertByKey]
    rw [List.pairwise_cons] at hl
    by_cases hc : keyLe prios x y = true
    · rw [if_pos hc]
      rw [List.pairwise_cons]
      refine ⟨?_, List.Pairwise.cons hl.1 hl.2⟩
      intro b hb
      rcases List.mem_cons.mp hb with rfl | hmem
      · exact hc
      · -- keyLe x b from keyLe x y and keyLe y b: transitivity
        have hyb := hl.1 b hmem
        rw [keyLe] at hc hyb ⊢
        simp only [Bool.or_eq_true, Bool.and_eq_true, decide_eq_true_eq] at hc hyb ⊢
        omega
    · rw [if_neg (by simpa using hc)]
      rw [List.pairwise_cons]
      refine ⟨?_, ih hl.2⟩
      intro b hb
      rcases (mem_insertByKey prios x b ys).mp hb with heq | hmem
      · rw [heq]
        rcases keyLe_total prios x y with h | h
        · exact absurd h hc
        · exact h
      · exact hl.1 b hmem

theorem pairwise_argsortAsc (prios : List ℤ) :
    (argsortAsc prios).Pairwise (fun a b => keyLe prios a b = true) := by
  rw [argsortAsc]
  generalize List.range prios.length = l
  induction l with
  | nil => simp
  | cons x xs ih =>
    rw [List.foldr_cons]
    exact pairwise_insertByKey prios x _ ih

theorem perm_insertByKey (prios : List ℤ) (x : ℕ) (l : List ℕ) :
    (insertByKey prios x l).Perm (x :: l) := by
  induction l with
  | nil => simp [insertByKey]
  | cons y ys ih =>
    rw [insertByKey]
    by_cases hc : keyLe prios x y = true
    · rw [if_pos hc]
    · rw [if_neg (by simpa using hc)]
      exact List.Perm.trans (List.Perm.cons y ih) (List.Perm.swap x y ys)

theorem perm_argsortAsc (prios : List ℤ) :
    (argsortAsc prios).Perm (List.range prios.length) := by
  rw [argsortAsc]
  generalize List.range prios.length = l
  induction l with
  | nil => simp
  | cons x xs ih =>
    rw [List.foldr_cons]
    exact List.Perm.trans (perm_insertByKey ..) (List.Perm.cons x ih)

theorem mem_sortedIndices (prios : List ℤ) (a : ℕ) :
    a ∈ sortedIndices prios ↔ a < prios.length := by
  rw [sortedIndices, List.mem_reverse, (perm_argsortAsc prios).mem_iff,
    List.mem_range]

theorem nodup_sortedIndices (prios : List ℤ) :
    (sortedIndices prios).Nodup := by
  rw [sortedIndices, List.nodup_reverse]
  exact (perm_argsortAsc prios).nodup_iff.mpr (List.nodup_range _)

/-- Consecutive targets in the processing order are strictly ordered:
descending priority, ties broken by descending original index. -/
theorem pairwise_sortedIndices (prios : List ℤ) :
    (sortedIndices prios).Pairwise (overlapBefore prios) := by
  have h1 : (sortedIndices prios).Pairwise
      (fun a b => keyLe prios b a = true) := by
    rw [sortedIndices, List.pairwise_reverse]
    exact pairwise_argsortAsc prios
  have h2 : (sortedIndices prios).Pairwise (fun a b => a ≠ b) :=
    nodup_sortedIndices prios
  refine (h1.and h2).imp ?_
  intro a b hab
  obtain ⟨hk, hne⟩ := hab
  rw [keyLe] at hk
  simp only [Bool.or_eq_true, Bool.and_eq_true, decide_eq_true_eq] at hk
  rw [overlapBefore]
  omega

/-! ## The ordered-pair loop -/

theorem mem_overlapPairs_elim {l : List ℕ} {x y : ℕ}
    (h : (x, y) ∈ overlapPairs l) : x ∈ l ∧ y ∈ l := by
  induction l with
  | nil => simp [overlapPairs] at h
  | cons i rest ih =>
    rw [overlapPairs, List.mem_append] at h
    rcases h with h | h
    · obtain ⟨j, hj, he⟩ := List.mem_map.mp h
      obtain ⟨he1, he2⟩ := Prod.mk.injEq .. ▸ he
      subst he1
      subst he2
      exact ⟨List.mem_cons_self _ _, List.mem_cons_of_mem _ hj⟩
    · obtain ⟨hx, hy⟩ := ih h
      exact ⟨List.mem_cons_of_mem _ hx, List.mem_cons_of_mem _ hy⟩

theorem pairwise_overlapPairs {R : ℕ → ℕ → Prop} {l : List ℕ}
    (h : l.Pairwise R) :
    ∀ p ∈ overlapPairs l, R p.1 p.2 := by
  induction l with
  | nil => intro p hp; simp [overlapPairs] at hp
  | cons i rest ih =>
    rw [List.pairwise_cons] at h
    intro p hp
    rw [overlapPairs, List.mem_append] at hp
    rcases hp with hp | hp
    · obtain ⟨j, hj, he⟩ := List.mem_map.mp hp
      rw [← he]
      exact h.1 j hj
    · exact ih h.2 p hp

theorem overlapPairs_or {l : List ℕ} {x y : ℕ} (hx : x ∈ l) (hy : y ∈ l)
    (hne : x ≠ y) :
    (x, y) ∈ overlapPairs l ∨ (y, x) ∈ overlapPairs l := by
  induction l with
  | nil => simp at hx
  | cons i rest ih =>
    rw [overlapPairs]
    rcases List.mem_cons.mp hx with rfl | hxr
    · have hyr : y ∈ rest := by
        rcases List.mem_cons.mp hy with rfl | h
        · exact absurd rfl hne
        · exact h
      exact Or.inl (List.mem_append.mpr (Or.inl
        (List.mem_map.mpr ⟨y, hyr, rfl⟩)))
    · rcases List.mem_cons.mp hy with rfl | hyr
      · exact Or.inr (List.mem_append.mpr (Or.inl
          (List.mem_map.mpr ⟨x, hxr, rfl⟩)))
      · rcases ih hxr hyr with h | h
        · exact Or.inl (List.mem_append.mpr (Or.inr h))
        · exact Or.inr (List.mem_append.mpr (Or.inr h))

/-- The pairs the loop visits are exactly the processing-order pairs. -/
theorem mem_overlapPairs_sorted (prios : List ℤ) (x y : ℕ) :
    (x, y) ∈ overlapPairs (sortedIndices prios) ↔
      x < prios.length ∧ y < prios.length ∧ overlapBefore prios x y := by
  constructor
  · intro h
    have hm := mem_overlapPairs_elim h
    have hR := pairwise_overlapPairs (pairwise_sortedIndices prios) _ h
    exact ⟨(mem_sortedIndices prios x).mp hm.1,
      (mem_sortedIndices prios y).mp hm.2, hR⟩
  · rintro ⟨hx, hy, hR⟩
    have hne : x ≠ y := by
      intro he
      subst he
      exact overlapBefore_irrefl prios x hR
    rcases overlapPairs_or ((mem_sortedIndices prios x).mpr hx)
        ((mem_sortedIndices prios y).mpr hy) hne with h | h
    · exact h
    · have := pairwise_overlapPairs (pairwise_sortedIndices prios) _ h
      exact absurd hR (overlapBefore_asymm prios y x this)

/-! ## The `global_no_overlap` masks -/

/-- The per-tile keep-bit a processed pair `(i, j)` contributes to target
`j`'s mask: false exactly when both targets participate, the polygons
intersect, and the tile center is contained in `i`'s polygon. -/
def pairBit (geo : Geometry) (targets : List Target)
    (tiles : List (List Tile)) (i j k : ℕ) : Bool :=
  !((targets.getD i default).overlap && (targets.getD j default).overlap &&
    geo.intersects i j &&
    geo.containsRadec i ((tiles.getD j []).getD k default).ra
      ((tiles.getD j []).getD k default).dec)

theorem applyPair_length (geo : Geometry) (targets : List Target)
    (tiles : List (List Tile)) (masks : List (List Bool)) (ij : ℕ × ℕ) :
    (applyPair geo targets tiles masks ij).length = masks.length := by
  rw [applyPair]
  split
  · rw [List.length_set]
  · rfl

theorem applyPair_inner_length (geo : Geometry) (targets : List Target)
    (tiles : List (List Tile)) (masks : List (List Bool)) (ij : ℕ × ℕ)
    (hlen : masks.length = tiles.length)
    (hinner : ∀ j, j < tiles.length →
      (masks.getD j []).length = (tiles.getD j []).length) :
    ∀ j, j < tiles.length →
      ((applyPair geo targets tiles masks ij).getD j []).length =
        (tiles.getD j []).length := by
  intro j hj
  obtain ⟨i', j'⟩ := ij
  rw [applyPair]
  by_cases hg : ((targets.getD i' default).overlap &&
      (targets.getD j' default).overlap) = true
  · rw [if_pos hg]
    by_cases hj'' : j = j'
    · subst hj''
      rw [getD_set_eq _ _ _ _ (by rw [hlen]; exact hj)]
      rw [List.length_zipWith, hinner j hj]
      by_cases hint : geo.intersects i' j = true
      · rw [if_pos hint, List.length_map, min_self]
      · rw [if_neg hint, List.length_map, min_self]
    · rw [getD_set_ne _ _ _ _ _ hj'']
      exact hinner j hj
  · rw [if_neg hg]
    exact hinner j hj

theorem applyPair_getD_getD (geo : Geometry) (targets : List Target)
    (tiles : List (List Tile)) (masks : List (List Bool)) (ij : ℕ × ℕ)
    (j k : ℕ) (hj : j < tiles.length)
    (hlen : masks.length = tiles.length)
    (hjk : (masks.getD j []).length = (tiles.getD j []).length)
    (hk : k < (tiles.getD j []).length) :
    ((applyPair geo targets tiles masks ij).getD j []).getD k true =
      ((masks.getD j []).getD k true &&
        ((!decide (ij.2 = j)) || pairBit geo targets tiles ij.1 j k)) := by
  obtain ⟨i', j'⟩ := ij
  rw [applyPair]
  by_cases hg : ((targets.getD i' default).overlap &&
      (targets.getD j' default).overlap) = true
  · rw [if_pos hg]
    by_cases hj'' : j' = j
    · subst hj''
      rw [getD_set_eq _ _ _ _ (by rw [hlen]; exact hj)]
      by_cases hint : geo.intersects i' j' = true
      · rw [if_pos hint]
        rw [getD_zipWith (· && ·) _ _ k true false true
          (by rw [hjk]; exact hk) (by rw [List.length_map]; exact hk)]
        rw [getD_map _ _ default false k hk]
        rw [pairBit]
        simp only [Bool.and_eq_true] at hg
        rw [hg.1, hg.2, hint]
        simp
      · rw [if_neg hint]
        rw [getD_zipWith (· && ·) _ _ k true false true
          (by rw [hjk]; exact hk) (by rw [List.length_map]; exact hk)]
        rw [getD_map _ _ default false k hk]
        rw [pairBit]
        have hint' : geo.intersects i' j' = false := by
          cases h : geo.intersects i' j'
          · rfl
          · exact absurd h hint
        rw [hint']
        simp
    · rw [getD_set_ne _ _ _ _ _ (fun h => hj'' h.symm)]
      have : decide (j' = j) = false := by
        simp [hj'']
      rw [this]
      simp
  · rw [if_neg hg]
    by_cases hj'' : j' = j
    · subst hj''
      rw [pairBit]
      have hg' : ((targets.getD i' default).overlap &&
          (targets.getD j' default).overlap) = false := by
        cases h : ((targets.getD i' default).overlap &&
            (targets.getD j' default).overlap)
        · rfl
        · exact absurd h hg
      rw [hg']
      simp
    · have : decide (j' = j) = false := by
        simp [hj'']
      rw [this]
      simp

/-- Invariant of the pair loop: the final bit of mask position `(j, k)`
is its initial bit AND the contribution of every processed pair. -/
theorem foldl_applyPair_getD (geo : Geometry) (targets : List Target)
    (tiles : List (List Tile)) (pairs : List (ℕ × ℕ)) :
    ∀ (masks : List (List Bool)), masks.length = tiles.length →
      (∀ j, j < tiles.length →
        (masks.getD j []).length = (tiles.getD j []).length) →
      ∀ j k, j < tiles.length → k < (tiles.getD j []).length →
      ((pairs.foldl (applyPair geo targets tiles) masks).getD j []).getD k
          true =
        ((masks.getD j []).getD k true &&
          pairs.all (fun ij =>
            (!decide (ij.2 = j)) || pairBit geo targets tiles ij.1 j k)) := by
  induction pairs with
  | nil =>
    intro masks _ _ j k _ _
    simp
  | cons ij rest ih =>
    intro masks hlen hinner j k hj hk
    rw [List.foldl_cons, List.all_cons]
    have hlen' : (applyPair geo targets tiles masks ij).length =
        tiles.length := by
      rw [applyPair_length, hlen]
    have hinner' := applyPair_inner_length geo targets tiles masks ij hlen
      hinner
    rw [ih (applyPair geo targets tiles masks ij) hlen' hinner' j k hj hk]
    rw [applyPair_getD_getD geo targets tiles masks ij j k hj hlen
      (hinner j hj) hk]
    rw [Bool.and_assoc]

/-- The `global_no_overlap` bit of tile `k` of target `j`. -/
theorem getOverlap_getD (geo : Geometry) (targets : List Target)
    (tiles : List (List Tile)) (j k : ℕ) (hj : j < tiles.length)
    (hk : k < (tiles.getD j []).length) :
    ((getOverlap geo targets tiles).getD j []).getD k true =
      (overlapPairs (sortedIndices (targetPrios targets tiles))).all
        (fun ij => (!decide (ij.2 = j)) || pairBit geo targets tiles ij.1 j k) := by
  rw [getOverlap]
  have hlen : (tiles.map (fun ts => ts.map (fun _ => true))).length =
      tiles.length := List.length_map ..
  have hinner : ∀ j', j' < tiles.length →
      ((tiles.map (fun ts => ts.map (fun _ => true))).getD j' []).length =
        (tiles.getD j' []).length := by
    intro j' hj'
    rw [getD_map _ _ [] [] j' hj', List.length_map]
  rw [foldl_applyPair_getD geo targets tiles _ _ hlen hinner j k hj hk]
  have hinit : ((tiles.map (fun ts => ts.map (fun _ => true))).getD j
      []).getD k true = true := by
    rw [getD_map _ _ [] [] j hj, getD_map _ _ default true k hk]
  rw [hinit, Bool.true_and]

theorem length_targetPrios (targets : List Target)
    (tiles : List (List Tile)) :
    (targetPrios targets tiles).length = tiles.length := by
  rw [targetPrios, List.length_map, List.length_range]

theorem targetPrios_getD (targets : List Target) (tiles : List (List Tile))
    (i : ℕ) (hi : i < tiles.length) :
    (targetPrios targets tiles).getD i 0 =
      (targets.getD i default).priority := by
  rw [targetPrios]
  exact getD_range_map _ _ 0 i hi

/-- A tile's mask bit goes false exactly when some processed pair lands
on it with all four removal conditions. -/
theorem getOverlap_removed_iff (geo : Geometry) (targets : List Target)
    (tiles : List (List Tile)) (j k : ℕ) (hj : j < tiles.length)
    (hk : k < (tiles.getD j []).length) :
    (((getOverlap geo targets tiles).getD j []).getD k true = false ↔
      ∃ i, (i, j) ∈ overlapPairs (sortedIndices (targetPrios targets tiles)) ∧
        pairBit geo targets tiles i j k = false) := by
  rw [getOverlap_getD geo targets tiles j k hj hk]
  rw [List.all_eq_false]
  constructor
  · rintro ⟨ij, hmem, hbit⟩
    obtain ⟨i', j'⟩ := ij
    simp only [Bool.not_eq_true, Bool.or_eq_false_iff, Bool.not_eq_false',
      decide_eq_true_eq] at hbit
    obtain ⟨hj', hbit⟩ := hbit
    subst hj'
    exact ⟨i', hmem, hbit⟩
  · rintro ⟨i, hmem, hbit⟩
    refine ⟨(i, j), hmem, ?_⟩
    simp [hbit]

/-- Every target's retained list is its mask-compressed tile list. -/
theorem removeOverlap_tiles_getD (geo : Geometry) (targets : List Target)
    (tiles : List (List Tile)) (j : ℕ) (hj : j < tiles.length) :
    (removeOverlap geo targets tiles).tiles.getD j [] =
      compress (tiles.getD j []) ((getOverlap geo targets tiles).getD j []) := by
  simp only [removeOverlap]
  exact getD_range_map _ _ [] j hj

/-- Claim C2, amended: overlap resolution removes tile `k` of target `j`
iff `j` participates and the tile's center lies inside the region polygon
of some participating target `i` whose polygon intersects `j`'s and which
is processed before `j` — that is, `i` has strictly higher priority than
`j`, or equal priority and a later position in the original target order
(`argsort(priorities)[::-1]` breaks priority ties by descending index, so
equal-priority participating targets do mask each other).  The retained
lists are exactly the mask-compressed tile lists. -/
theorem C2_overlap_removal_amended (geo : Geometry) (targets : List Target)
    (tiles : List (List Tile)) (j k : ℕ) (hj : j < tiles.length)
    (hk : k < (tiles.getD j []).length) :
    (((getOverlap geo targets tiles).getD j []).getD k true = false ↔
      ((targets.getD j default).overlap = true ∧
        ∃ i, i < tiles.length ∧ (targets.getD i default).overlap = true ∧
          ((targets.getD j default).priority <
              (targets.getD i default).priority ∨
            ((targets.getD i default).priority =
                (targets.getD j default).priority ∧ j < i)) ∧
          geo.intersects i j = true ∧
          geo.containsRadec i ((tiles.getD j []).getD k default).ra
            ((tiles.getD j []).getD k default).dec = true)) ∧
    (∀ j', j' < tiles.length →
      (removeOverlap geo targets tiles).tiles.getD j' [] =
        compress (tiles.getD j' [])
          ((getOverlap geo targets tiles).getD j' [])) := by
  refine ⟨?_, fun j' hj' => removeOverlap_tiles_getD geo targets tiles j' hj'⟩
  rw [getOverlap_removed_iff geo targets tiles j k hj hk]
  constructor
  · rintro ⟨i, hmem, hbit⟩
    rw [mem_overlapPairs_sorted] at hmem
    obtain ⟨hi, _, hbefore⟩ := hmem
    rw [length_targetPrios] at hi
    rw [overlapBefore, targetPrios_getD targets tiles i hi,
      targetPrios_getD targets tiles j hj] at hbefore
    rw [pairBit] at hbit
    simp only [Bool.not_eq_false', Bool.and_eq_true] at hbit
    obtain ⟨⟨⟨hovi, hovj⟩, hint⟩, hcont⟩ := hbit
    exact ⟨hovj, i, hi, hovi, hbefore, hint, hcont⟩
  · rintro ⟨hovj, i, hi, hovi, hpr, hint, hcont⟩
    refine ⟨i, ?_, ?_⟩
    · rw [mem_overlapPairs_sorted, length_targetPrios]
      refine ⟨hi, hj, ?_⟩
      rw [overlapBefore, targetPrios_getD targets tiles i hi,
        targetPrios_getD targets tiles j hj]
      exact hpr
    · rw [pairBit]
      simp only [Bool.not_eq_false', Bool.and_eq_true]
      exact ⟨⟨⟨hovi, hovj⟩, hint⟩, hcont⟩

/-! Concrete scenario refuting claim C2 as stated: two participating
targets of EQUAL priority whose polygons intersect, with target 0's only
tile inside target 1's polygon. -/

def c2Geo : Geometry := ⟨fun _ _ => true, fun i _ _ => decide (i = 1)⟩

def c2Targets : List Target :=
  [⟨"A", "LVM", 5, 2, 1, 100, 10, 900, 1, 1, true⟩,
   ⟨"B", "LVM", 5, 2, 1, 100, 10, 900, 1, 1, true⟩]

def c2Tiles : List (List Tile) := [[⟨0, 0, 0, 1⟩], [⟨10, 5, 0, 2⟩]]

/-- Counterexample to claim C2 as stated: with equal priorities (both 5)
the processing order is `[1, 0]`, so target 0's only tile is removed on
account of equal-priority target 1, although no target has strictly
higher priority than target 0 — the removal is not equivalent to the
existence of a strictly-higher-priority containing target. -/
theorem C2_counterexample :
    ((getOverlap c2Geo c2Targets c2Tiles).getD 0 []).getD 0 true = false ∧
    (removeOverlap c2Geo c2Targets c2Tiles).tiles.getD 0 [] = [] ∧
    (∀ i, i < c2Targets.length →
      ¬ (c2Targets.getD 0 default).priority <
        (c2Targets.getD i default).priority) := by
  decide

theorem C2_witness :
    (0 < c2Tiles.length ∧ 0 < (c2Tiles.getD 0 []).length) ∧
    ((getOverlap c2Geo c2Targets c2Tiles).getD 0 []).getD 0 true = false ∧
    (removeOverlap c2Geo c2Targets c2Tiles).tiles.getD 0 [] =
      compress (c2Tiles.getD 0 [])
        ((getOverlap c2Geo c2Targets c2Tiles).getD 0 []) :=
  ⟨⟨by decide, by decide⟩,
    (C2_overlap_removal_amended c2Geo c2Targets c2Tiles 0 0 (by decide)
        (by decide)).1.mpr
      (by decide),
    (C2_overlap_removal_amended c2Geo c2Targets c2Tiles 0 0 (by decide)
        (by decide)).2 0 (by decide)⟩
